import Mathlib

/-!
Verification of the date assignment and repair engine of `msjournal-reader`
(`src/msjournal_reader/date/{types,parsers,repair,assign}.py`).

The embedding models Python `datetime.date` by its proleptic Gregorian
ordinal (`date.toordinal()`), extended from Python's `[1, 9999]` year range
to all integers so that day arithmetic is total.  Python `float` scores and
confidences are modelled by `ℚ` (every score the code builds is a multiple
of `1/2`, which binary floats represent exactly, so comparisons agree).
String scanning models the two anchored regular expressions by hand-written
deterministic scanners over ASCII text.
-/

set_option maxRecDepth 4000

namespace MSJ

/-! ### Calendar model (Python `datetime.date`) -/

def isLeap (y : Int) : Bool :=
  (y % 4 == 0 && y % 100 != 0) || (y % 400 == 0)

def daysInMonth (y : Int) (m : Nat) : Nat :=
  if m = 2 then (if isLeap y then 29 else 28)
  else if m = 4 ∨ m = 6 ∨ m = 9 ∨ m = 11 then 30
  else 31

/-- Days in year `y` before the first of month `m` (1-based). -/
def daysBeforeMonth (y : Int) (m : Nat) : Nat :=
  (List.range (m - 1)).foldl (fun acc i => acc + daysInMonth y (i + 1)) 0

/-- Days before January 1 of year `y` (mirrors CPython `_days_before_year`). -/
def daysBeforeYear (y : Int) : Int :=
  365 * (y - 1) + (y - 1) / 4 - (y - 1) / 100 + (y - 1) / 400

/-- `date(y, m, d).toordinal()` for a valid calendar triple. -/
def toOrdinal (y : Int) (m d : Nat) : Int :=
  daysBeforeYear y + daysBeforeMonth y m + d

/-- Month search of CPython `_ord2ymd`: given 0-based day-of-year `doy`,
walk months `m, m+1, ...` (at most `fuel` steps) subtracting month lengths. -/
def monthOfDoy (y : Int) : Nat → Nat → Nat → Nat × Nat
  | 0, m, doy => (m, doy + 1)
  | fuel + 1, m, doy =>
    if doy < daysInMonth y m then (m, doy + 1)
    else monthOfDoy y fuel (m + 1) (doy - daysInMonth y m)

/-- CPython `_ord2ymd`, extended to every integer ordinal via the 400-year
cycle (146097 days); agrees with CPython on ordinals `1 ..= 3652059`. -/
def ord2ymd (n : Int) : Int × Nat × Nat :=
  let n0 := n - 1
  let n400 := Int.ediv n0 146097
  let r := (Int.emod n0 146097).toNat
  let n100 := r / 36524
  let r1 := r % 36524
  let n4 := r1 / 1461
  let r2 := r1 % 1461
  let n1 := r2 / 365
  let r3 := r2 % 365
  let year : Int := 400 * n400 + 100 * n100 + 4 * n4 + n1 + 1
  if n1 = 4 ∨ n100 = 4 then (year - 1, 12, 31)
  else
    let md := monthOfDoy year 11 1 r3
    (year, md.1, md.2)

/-- A Python `datetime.date`, represented by its proleptic Gregorian
ordinal (`date.toordinal()`), extended to all of `ℤ`. -/
structure PyDate where
  ord : Int
deriving DecidableEq, Repr

def PyDate.year (d : PyDate) : Int := (ord2ymd d.ord).1

def PyDate.month (d : PyDate) : Nat := (ord2ymd d.ord).2.1

def PyDate.day (d : PyDate) : Nat := (ord2ymd d.ord).2.2

/-- Python `date.weekday()`: Monday = 0, ..., Sunday = 6. -/
def PyDate.weekday (d : PyDate) : Nat := ((d.ord + 6) % 7).toNat

/-- `d.fromordinal(d.toordinal() + k)`. -/
def PyDate.addDays (d : PyDate) (k : Int) : PyDate := ⟨d.ord + k⟩

/-- The `date(y, mo, da)` constructor: `some` on a valid calendar triple
(within Python's year range), `none` where CPython raises `ValueError`. -/
def mkDate (y : Int) (mo da : Int) : Option PyDate :=
  if 1 ≤ y ∧ y ≤ 9999 ∧ 1 ≤ mo ∧ mo ≤ 12 ∧ 1 ≤ da ∧ da ≤ daysInMonth y mo.toNat then
    some ⟨toOrdinal y mo.toNat da.toNat⟩
  else none

/-- Shorthand for a known-valid date literal. -/
def pyd (y : Int) (m d : Nat) : PyDate := ⟨toOrdinal y m d⟩

/-! ### Python string helpers (ASCII model) -/

/-- ASCII whitespace, the fragment of Python `str.strip` / regex `\s`
exercised by this code base. -/
def pyIsWs (c : Char) : Bool :=
  c == ' ' || c == '\t' || c == '\n' || c == '\r' || c == '\x0b' || c == '\x0c'

def pyStrip (s : String) : String :=
  ⟨((s.toList.dropWhile pyIsWs).reverse.dropWhile pyIsWs).reverse⟩

def isAsciiAlpha (c : Char) : Bool :=
  ('a' ≤ c && c ≤ 'z') || ('A' ≤ c && c ≤ 'Z')

def isAsciiDigit (c : Char) : Bool := '0' ≤ c && c ≤ '9'

def isLowerAlpha (c : Char) : Bool := 'a' ≤ c && c ≤ 'z'

/-- Digit tail of Python `int(str)`: digits with single underscores allowed
between digits (`accum` carries digits already read). -/
def pyIntDigits (acc : Nat) : List Char → Option Nat
  | [] => some acc
  | '_' :: c :: cs =>
    if isAsciiDigit c then pyIntDigits (acc * 10 + (c.toNat - 48)) cs else none
  | '_' :: [] => none
  | c :: cs =>
    if isAsciiDigit c then pyIntDigits (acc * 10 + (c.toNat - 48)) cs else none

def pyIntCore : List Char → Option Nat
  | c :: cs => if isAsciiDigit c then pyIntDigits (c.toNat - 48) cs else none
  | [] => none

/-- Python `int(s)` on ASCII text: optional surrounding whitespace, optional
sign, then a nonempty digit run (underscores allowed between digits);
`none` where CPython raises `ValueError`. -/
def pyInt (s : String) : Option Int :=
  match (pyStrip s).toList with
  | '+' :: cs => (pyIntCore cs).map (fun n => (n : Int))
  | '-' :: cs => (pyIntCore cs).map (fun n => -(n : Int))
  | cs => (pyIntCore cs).map (fun n => (n : Int))

def splitNl : List Char → List (List Char)
  | [] => [[]]
  | '\n' :: rest => [] :: splitNl rest
  | c :: rest =>
    match splitNl rest with
    | h :: t => (c :: h) :: t
    | [] => [[c]]

/-- Python `str.splitlines()` restricted to `\n` terminators (the `\r` of a
`\r\n` pair is later removed by `strip`, which the engine always applies). -/
def pySplitlines (s : String) : List String :=
  match s.toList with
  | [] => []
  | cs =>
    let parts := (splitNl cs).map (fun l => String.mk l)
    if cs.getLast? = some '\n' then parts.dropLast else parts

/-- Python `pages[:n]` slicing, including the negative-index case. -/
def pySlice {α : Type} (n : Int) (l : List α) : List α :=
  if 0 ≤ n then l.take n.toNat else l.take (l.length - (-n).toNat)

/-- ASCII fragment of Python `str.lower()`. -/
def asciiLower (c : Char) : Char :=
  if 'A' ≤ c && c ≤ 'Z' then Char.ofNat (c.toNat + 32) else c

def lowerStr (s : String) : String := ⟨s.toList.map asciiLower⟩

def strStarts (s pre : String) : Bool := pre.toList.isPrefixOf s.toList

def strEnds (s suf : String) : Bool := suf.toList.isSuffixOf s.toList

def natDigitsAux : Nat → Nat → List Char → List Char
  | 0, _, acc => acc
  | fuel + 1, n, acc =>
    let d := Char.ofNat (n % 10 + 48)
    if n < 10 then d :: acc else natDigitsAux fuel (n / 10) (d :: acc)

/-- Python `str(n)` for a natural number. -/
def natStr (n : Nat) : String := ⟨natDigitsAux (n + 1) n []⟩

/-- Python `str(n)` for an integer. -/
def intStr : Int → String
  | Int.ofNat n => natStr n
  | Int.negSucc m => ⟨'-' :: (natStr (m + 1)).toList⟩

def rangeIntAux : Nat → Int → List Int
  | 0, _ => []
  | n + 1, lo => lo :: rangeIntAux n (lo + 1)

/-- Python `range(lo, hi)` over integers. -/
def rangeInt (lo hi : Int) : List Int := rangeIntAux (hi - lo).toNat lo

def rangeNatAux : Nat → Nat → List Nat
  | 0, _ => []
  | n + 1, lo => lo :: rangeNatAux n (lo + 1)

/-- Python `range(lo, hi)` over naturals. -/
def rangeNat (lo hi : Nat) : List Nat := rangeNatAux (hi - lo) lo

/-! ### Data model (`types.py`) -/

/-- A parsed date header candidate from a single page. -/
structure DateCandidate where
  dow : String
  month_token : String
  day_token : String
  year_token : String
  source : String
deriving DecidableEq, Repr

inductive DMethod where
  | parsed
  | repaired
  | inferred
  | none
deriving DecidableEq, Repr

/-- Final assigned date for a page (`None` date if unassigned). -/
structure DateAssignment where
  d : Option PyDate
  method : DMethod
  confidence : ℚ
  note : Option String
deriving DecidableEq, Repr

/-- Controls optional date heuristics. -/
structure DatePolicy where
  allow_repair : Bool
  allow_infer_continuations : Bool
  max_window_days : Int
  auto_min_hits : Int
  auto_scan_pages : Int
deriving DecidableEq, Repr

/-- The defaults of the `DatePolicy` dataclass. -/
def defaultPolicy : DatePolicy := ⟨true, true, 14, 3, 20⟩

/-! ### `repair.py` -/

def MONTHS : List (String × Nat) :=
  [("january", 1), ("february", 2), ("march", 3), ("april", 4),
   ("may", 5), ("june", 6), ("july", 7), ("august", 8),
   ("september", 9), ("october", 10), ("november", 11), ("december", 12)]

/-- The normalisation prefix of `_month_token_to_int`: strip + lower, map
the OCR confusion `|` to `l`, drop everything outside `a-z`. -/
def normMonthTok (tok : String) : Option String :=
  let t := lowerStr (pyStrip tok)
  if t = "" then Option.none
  else
    let t := t.toList.map (fun c => if c = '|' then 'l' else c)
    some ⟨t.filter isLowerAlpha⟩

def monthLookup (t : String) : Option Nat :=
  (MONTHS.find? (fun p => p.1 = t)).map (fun p => p.2)

def _month_token_to_int (tok : String) : Option Nat :=
  match normMonthTok tok with
  | Option.none => Option.none
  | some t =>
    if 3 ≤ t.length then
      match MONTHS.find? (fun p => strStarts p.1 (⟨t.toList.take 3⟩ : String)) with
      | some p => some p.2
      | Option.none => monthLookup t
    else monthLookup t

/-- Month resolution in the order the spec words it (normalise, then exact
full-name match, else first-three-letter prefix match): provably equal to
the source's `_month_token_to_int`, which tries the prefix first. -/
def monthResolveSpec (tok : String) : Option Nat :=
  match normMonthTok tok with
  | Option.none => Option.none
  | some t =>
    match monthLookup t with
    | some n => some n
    | Option.none =>
      if 3 ≤ t.length then
        (MONTHS.find? (fun p => strStarts p.1 (⟨t.toList.take 3⟩ : String))).map
          (fun p => p.2)
      else Option.none

def _dow_to_wanted (dow : String) : Option Nat :=
  let t := lowerStr (pyStrip dow)
  if t = "monday" then some 0
  else if t = "tuesday" then some 1
  else if t = "wednesday" then some 2
  else if t = "thursday" then some 3
  else if t = "friday" then some 4
  else if t = "saturday" then some 5
  else if t = "sunday" then some 6
  else Option.none

/-- Strict comparison of the Python sort key `(abs(delta), delta > 0)`. -/
def dowKeyLt (a b : Int) : Bool :=
  a.natAbs < b.natAbs || (a.natAbs == b.natAbs && !(decide (0 < a)) && decide (0 < b))

/-- `_fix_date_by_dow`: move `d` to the nearest date (within
`maxDeltaDays`) whose weekday matches the stated weekday token.  The
Python stable sort by `(abs(delta), delta > 0)` followed by `[0]` is
modelled as a fold keeping the first key-minimal candidate. -/
def _fix_date_by_dow (d : PyDate) (dow : String) (maxDeltaDays : Int) : PyDate :=
  match _dow_to_wanted dow with
  | Option.none => d
  | some want =>
    if d.weekday = want then d
    else
      let candidates := (rangeInt (-maxDeltaDays) (maxDeltaDays + 1)).filterMap
        (fun delta =>
          if delta = 0 then Option.none
          else if (d.addDays delta).weekday = want then some (delta, d.addDays delta)
          else Option.none)
      match candidates with
      | [] => d
      | c :: cs => (cs.foldl (fun b x => if dowKeyLt x.1 b.1 then x else b) c).2

/-- `candidate_to_date`: parse tokens, build the calendar date, then apply
weekday reconciliation. -/
def candidate_to_date (c : DateCandidate) : Option PyDate :=
  match pyInt c.year_token, pyInt c.day_token with
  | some y, some da =>
    (match _month_token_to_int c.month_token with
     | Option.none => Option.none
     | some mo =>
       match mkDate y (mo : Int) da with
       | Option.none => Option.none
       | some d => some (_fix_date_by_dow d c.dow 3))
  | _, _ => Option.none

def repairScore (pm : Option Nat) (ocrDay : Int) (target : PyDate) (delta : Int) : ℚ :=
  let cand := target.addDays delta
  let score : ℚ := (delta.natAbs : ℚ)
  let score := match pm with
    | some m => if cand.month ≠ m then score + 3 else score
    | Option.none => score
  if (cand.day : Int) ≠ ocrDay then
    (if strEnds (natStr cand.day) (intStr ocrDay) then score + 1 / 2 else score + 2)
  else score

/-- One iteration of the repair window loop: skip candidates failing the
year or weekday constraint, otherwise keep the first strictly best score. -/
def repairStep (y : Int) (want : Nat) (pm : Option Nat) (ocrDay : Int) (target : PyDate)
    (best : Option (ℚ × PyDate)) (delta : Int) : Option (ℚ × PyDate) :=
  let cand := target.addDays delta
  if cand.year ≠ y then best
  else if cand.weekday ≠ want then best
  else
    let score := repairScore pm ocrDay target delta
    match best with
    | Option.none => some (score, cand)
    | some b => if score < b.1 then some (score, cand) else best

def repairWindow (policy : DatePolicy) : List Int :=
  rangeInt (-policy.max_window_days) (policy.max_window_days + 1)

/-- `repair_with_context`: scored window search around `prev + 1 day`. -/
def repair_with_context (c : DateCandidate) (prev : PyDate) (policy : DatePolicy) :
    Option DateAssignment :=
  match _dow_to_wanted c.dow with
  | Option.none => Option.none
  | some want =>
    match pyInt c.year_token, pyInt c.day_token with
    | some y, some ocrDay =>
      let pm := _month_token_to_int c.month_token
      let target := prev.addDays 1
      match (repairWindow policy).foldl (repairStep y want pm ocrDay target) Option.none with
      | Option.none => Option.none
      | some sd =>
        if 7 < (sd.2.ord - target.ord).natAbs then Option.none
        else some ⟨some sd.2, DMethod.repaired, max (2 / 10) (1 - sd.1 / 10), Option.none⟩
    | _, _ => Option.none

/-- `repairScore` with all values doubled, so that it lands in `ℤ`:
every Python score is a multiple of `1/2` (`|delta| + 3.0 + 0.5/2.0`).
Used only as a provably-equal executable mirror of the `ℚ` fold. -/
def repairScoreH (pm : Option Nat) (ocrDay : Int) (target : PyDate) (delta : Int) : Int :=
  let cand := target.addDays delta
  let score : Int := 2 * (delta.natAbs : Int)
  let score := match pm with
    | some m => if cand.month ≠ m then score + 6 else score
    | Option.none => score
  if (cand.day : Int) ≠ ocrDay then
    (if strEnds (natStr cand.day) (intStr ocrDay) then score + 1 else score + 4)
  else score

def repairStepH (y : Int) (want : Nat) (pm : Option Nat) (ocrDay : Int) (target : PyDate)
    (best : Option (Int × PyDate)) (delta : Int) : Option (Int × PyDate) :=
  let cand := target.addDays delta
  if cand.year ≠ y then best
  else if cand.weekday ≠ want then best
  else
    let score := repairScoreH pm ocrDay target delta
    match best with
    | Option.none => some (score, cand)
    | some b => if score < b.1 then some (score, cand) else best

/-- `repair_with_context` computed through the doubled integer scores. -/
def repair_with_contextH (c : DateCandidate) (prev : PyDate) (policy : DatePolicy) :
    Option DateAssignment :=
  match _dow_to_wanted c.dow with
  | Option.none => Option.none
  | some want =>
    match pyInt c.year_token, pyInt c.day_token with
    | some y, some ocrDay =>
      let pm := _month_token_to_int c.month_token
      let target := prev.addDays 1
      match (repairWindow policy).foldl (repairStepH y want pm ocrDay target) Option.none with
      | Option.none => Option.none
      | some sd =>
        if 7 < (sd.2.ord - target.ord).natAbs then Option.none
        else some ⟨some sd.2, DMethod.repaired, mkRat (max 4 (20 - sd.1)) 20, Option.none⟩
    | _, _ => Option.none

/-- Doubled-score pairs back to the `ℚ` scores of the source. -/
def half2Q (p : Int × PyDate) : ℚ × PyDate := ((p.1 : ℚ) / 2, p.2)

/-- The year and weekday constraints a window candidate must pass before
it is scored (`cand.year != y` / `cand.weekday() != want` rejections). -/
def RQual (y : Int) (want : Nat) (target : PyDate) (delta : Int) : Prop :=
  (target.addDays delta).year = y ∧ (target.addDays delta).weekday = want

instance (y : Int) (want : Nat) (target : PyDate) (delta : Int) :
    Decidable (RQual y want target delta) := by
  unfold RQual
  infer_instance

/-! ### `parsers.py` -/

def WEEKDAYS : List String :=
  ["monday", "tuesday", "wednesday", "thursday", "friday", "saturday", "sunday"]

/-- Case-insensitive literal-word match: on success returns the matched
source characters (original case) and the rest of the input. -/
def stripCI : List Char → List Char → Option (List Char × List Char)
  | [], cs => some ([], cs)
  | _ :: _, [] => Option.none
  | p :: ps, c :: cs =>
    if asciiLower c = asciiLower p then
      (stripCI ps cs).map (fun pr => (c :: pr.1, pr.2))
    else Option.none

/-- The `(?P<dow>monday|...|sunday)` alternation of both regexes.  No
weekday name is a prefix of another, so first-alternative-wins scanning is
deterministic. -/
def matchDowTok (cs : List Char) : Option (List Char × List Char) :=
  WEEKDAYS.findSome? (fun w => stripCI w.toList cs)

def spanWs (cs : List Char) : Nat × List Char :=
  let t := cs.takeWhile pyIsWs
  (t.length, cs.dropWhile pyIsWs)

/-- The separator `\s*,?\s+` of `DATE_LINE_RE`: optional whitespace, an
optional comma, then at least one whitespace character. -/
def matchSep (cs : List Char) : Option (List Char) :=
  let p := spanWs cs
  match p.2 with
  | ',' :: cs2 =>
    let q := spanWs cs2
    if 1 ≤ q.1 then some q.2 else Option.none
  | _ => if 1 ≤ p.1 then some p.2 else Option.none

/-- Hand-rolled deterministic scanner for the anchored
`DATE_LINE_RE = ^DOW\s*,?\s+[a-zA-Z]{3,12}\s+\d{1,2}\s*,?\s+\d{4}\s*$`
(`re.IGNORECASE`); backtracking never helps this pattern, so maximal-run
scanning is equivalent.  Returns `(dow, month, day, year)` group texts. -/
def matchDateLine (s : String) : Option (String × String × String × String) :=
  match matchDowTok s.toList with
  | Option.none => Option.none
  | some dw =>
    match matchSep dw.2 with
    | Option.none => Option.none
    | some cs1 =>
      let letters := cs1.takeWhile isAsciiAlpha
      let cs2 := cs1.dropWhile isAsciiAlpha
      if 3 ≤ letters.length ∧ letters.length ≤ 12 then
        let w2 := spanWs cs2
        if 1 ≤ w2.1 then
          let dds := w2.2.takeWhile isAsciiDigit
          let cs3 := w2.2.dropWhile isAsciiDigit
          if 1 ≤ dds.length ∧ dds.length ≤ 2 then
            match matchSep cs3 with
            | Option.none => Option.none
            | some cs4 =>
              let yds := cs4.takeWhile isAsciiDigit
              let cs5 := cs4.dropWhile isAsciiDigit
              if yds.length = 4 ∧ cs5.all pyIsWs then
                some (⟨dw.1⟩, ⟨letters⟩, ⟨dds⟩, ⟨yds⟩)
              else Option.none
          else Option.none
        else Option.none
      else Option.none

/-- `DOW_ONLY_RE.fullmatch`: a weekday word, then `\s*,?\s*` to the end. -/
def dowOnly (s : String) : Bool :=
  match matchDowTok s.toList with
  | Option.none => false
  | some dw =>
    let r1 := dw.2.dropWhile pyIsWs
    match r1 with
    | ',' :: r2 => r2.all pyIsWs
    | _ => r1.isEmpty

/-- The scan loop of `parse_dow_month_day_year`: first matching line wins. -/
def scanLines : List String → Option DateCandidate
  | [] => Option.none
  | ln :: rest =>
    match matchDateLine ln with
    | some g => some ⟨g.1, g.2.1, g.2.2.1, g.2.2.2, ln⟩
    | Option.none => scanLines rest

/-- The blank-line filtering prefix of `parse_dow_month_day_year`. -/
def stripFilter (lines : List String) : List String :=
  lines.filterMap (fun ln => if ln ≠ "" ∧ pyStrip ln ≠ "" then some (pyStrip ln) else Option.none)

/-- Body of `parse_dow_month_day_year` on the already-filtered lines: the
two-line stitch needs at least two lines, else the first-match scan of the
first 10 lines. -/
def parseFiltered : List String → Option DateCandidate
  | [] => Option.none
  | [l0] => scanLines ([l0].take 10)
  | l0 :: l1 :: rest =>
    match (if dowOnly l0 then
        (match matchDateLine (l0 ++ " " ++ l1) with
         | some g => some ⟨g.1, g.2.1, g.2.2.1, g.2.2.2, l0 ++ " " ++ l1⟩
         | Option.none => Option.none)
      else Option.none) with
    | some c => some c
    | Option.none => scanLines ((l0 :: l1 :: rest).take 10)

/-- `parse_dow_month_day_year`: two-line stitch for the weekday-alone OCR
artifact, else first-match scan of the first 10 non-blank lines. -/
def parse_dow_month_day_year (lines : List String) : Option DateCandidate :=
  parseFiltered (stripFilter lines)

/-! ### `assign.py` -/

structure Page where
  doc : String
  page : Int
  path : String
  text : String
deriving DecidableEq, Repr

/-- `auto_detect_date_mode`'s scan loop, threading the hit count. -/
def autoLoop (policy : DatePolicy) : Nat → List Page → Bool
  | _, [] => false
  | hits, p :: rest =>
    match parse_dow_month_day_year ((pySplitlines p.text).take 10) with
    | Option.none => autoLoop policy hits rest
    | some cand =>
      let hits := if (candidate_to_date cand).isSome then hits + 1 else hits
      if policy.auto_min_hits ≤ (hits : Int) then true else autoLoop policy hits rest

/-- `auto_detect_date_mode`: True if date grouping should be attempted. -/
def auto_detect_date_mode (pages : List Page) (policy : DatePolicy) : Bool :=
  autoLoop policy 0 (pySlice policy.auto_scan_pages pages)

/-- Whether a page's header parses and normalises to a date: the event
`auto_detect_date_mode` counts. -/
def autoHit (p : Page) : Bool :=
  match parse_dow_month_day_year ((pySplitlines p.text).take 10) with
  | some cand => (candidate_to_date cand).isSome
  | Option.none => false

/-- The number of pages whose header parses and normalises to a date. -/
def autoHitCount : List Page → Nat
  | [] => 0
  | p :: rest => (if autoHit p then 1 else 0) + autoHitCount rest

def noneAssign : DateAssignment := ⟨Option.none, DMethod.none, 0, Option.none⟩

/-- First pass of `assign_dates`: parse, normalise, repair, threading the
previously accepted date. -/
def pass1 (policy : DatePolicy) : Option PyDate → List Page → List DateAssignment
  | _, [] => []
  | prev, p :: rest =>
    match parse_dow_month_day_year ((pySplitlines p.text).take 10) with
    | Option.none => noneAssign :: pass1 policy prev rest
    | some cand =>
      match candidate_to_date cand, prev with
      | some d, some pv =>
        if policy.allow_repair = true ∧ (d.ord - pv.ord < 0 ∨ 3 < d.ord - pv.ord) then
          match repair_with_context cand pv policy with
          | some rep =>
            (match rep.d with
             | some dd => rep :: pass1 policy (some dd) rest
             | Option.none => ⟨some d, DMethod.parsed, 1, Option.none⟩ ::
                 pass1 policy (some d) rest)
          | Option.none => ⟨some d, DMethod.parsed, 1, Option.none⟩ :: pass1 policy (some d) rest
        else ⟨some d, DMethod.parsed, 1, Option.none⟩ :: pass1 policy (some d) rest
      | some d, Option.none =>
        ⟨some d, DMethod.parsed, 1, Option.none⟩ :: pass1 policy (some d) rest
      | Option.none, _ => noneAssign :: pass1 policy prev rest

/-- `known = [(i, a.d) for i, a in enumerate(assigns) if a.d is not None]`,
written as a recursion carrying the enumeration index. -/
def knownAux (i : Nat) : List DateAssignment → List (Nat × PyDate)
  | [] => []
  | a :: rest =>
    match a.d with
    | some d => (i, d) :: knownAux (i + 1) rest
    | Option.none => knownAux (i + 1) rest

/-- `if assigns[gi].d is None: assigns[gi] = fill` for one index. -/
def fillStep (fill : DateAssignment) (acc : List DateAssignment) (gi : Nat) :
    List DateAssignment :=
  match acc.get? gi with
  | some a => if a.d = Option.none then acc.set gi fill else acc
  | Option.none => acc

/-- `assigns[gi] = fill` for each `gi` in `idxs` whose current date is
`None` (the body of both fill loops of the second pass). -/
def fillRange (fill : DateAssignment) (l : List DateAssignment) (idxs : List Nat) :
    List DateAssignment :=
  idxs.foldl (fillStep fill) l

def neighborFill (f : PyDate) : DateAssignment :=
  ⟨some f, DMethod.inferred, mkRat 3 10, some "neighbor-gap"⟩

def trailingFill (f : PyDate) : DateAssignment :=
  ⟨some f, DMethod.inferred, mkRat 2 10, some "trailing"⟩

/-- One iteration of the consecutive-known-pairs loop of the second pass. -/
def inferStep (known : List (Nat × PyDate)) (assigns : List DateAssignment) (k : Nat) :
    List DateAssignment :=
  match known.get? k, known.get? (k + 1) with
  | some p0, some p1 =>
    if p1.1 ≤ p0.1 + 1 then assigns
    else
      let gap_days := p1.2.ord - p0.2.ord
      let fill : Option PyDate :=
        if gap_days = 1 then some p0.2
        else if gap_days = 2 then some (p0.2.addDays 1) else Option.none
      match fill with
      | Option.none => assigns
      | some f => fillRange (neighborFill f) assigns (rangeNat (p0.1 + 1) p1.1)
  | _, _ => assigns

/-- Second pass of `assign_dates`: gap inference between consecutive known
dates, then trailing continuation of the last known date. -/
def inferGaps (assigns : List DateAssignment) : List DateAssignment :=
  let known := knownAux 0 assigns
  let a1 := (rangeNat 0 (known.length - 1)).foldl (inferStep known) assigns
  match known.getLast? with
  | Option.none => a1
  | some lastP => fillRange (trailingFill lastP.2) a1 (rangeNat (lastP.1 + 1) a1.length)

/-- `assign_dates`: two-pass date assignment for a document. -/
def assign_dates (pages : List Page) (policy : DatePolicy) : List DateAssignment :=
  let assigns := pass1 policy Option.none pages
  if policy.allow_infer_continuations = false then assigns
  else inferGaps assigns

/-- The per-assignment invariants of the spec's data model:
`method = none ⇔ date = null`, `confidence ∈ [0,1]`,
`parsed ⇒ confidence = 1`, `repaired/inferred ⇒ date ≠ null`. -/
def AssignInv (a : DateAssignment) : Prop :=
  (a.method = DMethod.none ↔ a.d = Option.none) ∧
  0 ≤ a.confidence ∧ a.confidence ≤ 1 ∧
  (a.method = DMethod.parsed → a.confidence = 1) ∧
  ((a.method = DMethod.repaired ∨ a.method = DMethod.inferred) → a.d ≠ Option.none)

instance (a : DateAssignment) : Decidable (AssignInv a) := by
  unfold AssignInv
  infer_instance

def pgOf (t : String) : Page := ⟨"doc", 1, "p", t⟩

def polNoRepair : DatePolicy := ⟨false, true, 14, 3, 20⟩

/-- Concrete candidate: weekday Sunday, month January, day 27, year 2025
(the spec's own worked repair example). -/
def candSun : DateCandidate := ⟨"sunday", "january", "27", "2025", ""⟩

/-- Concrete candidate: Saturday, January 1, 2025. -/
def candSat : DateCandidate := ⟨"saturday", "january", "1", "2025", ""⟩

/-- A concrete pass-1 result: two known dates one day apart at indices 0
and 3, undated pages between and after. -/
def lC7 : List DateAssignment :=
  [⟨some (pyd 2025 1 1), DMethod.parsed, 1, Option.none⟩,
   noneAssign, noneAssign,
   ⟨some (pyd 2025 1 2), DMethod.parsed, 1, Option.none⟩,
   noneAssign]

/-! ### Theorems.  The `ℚ` fold of `repair_with_context` agrees with the
doubled-integer fold of `repair_with_contextH`. -/

theorem conf_eq (s2 : Int) :
    max (2 / 10 : ℚ) (1 - ((s2 : ℚ) / 2) / 10) = mkRat (max 4 (20 - s2)) 20 := by
  rw [Rat.mkRat_eq_divInt, Rat.divInt_eq_div]
  push_cast
  rcases le_total (4 : ℚ) (20 - s2) with h | h
  · rw [max_eq_right h, max_eq_right (by linarith)]
    ring
  · rw [max_eq_left h, max_eq_left (by linarith)]
    norm_num

theorem repairScoreH_eq (pm : Option Nat) (ocrDay : Int) (target : PyDate) (delta : Int) :
    repairScore pm ocrDay target delta = (repairScoreH pm ocrDay target delta : ℚ) / 2 := by
  unfold repairScore repairScoreH
  rcases pm with _ | m <;> dsimp only <;> split_ifs <;> push_cast [Int.cast_natAbs] <;> ring

theorem repairStepH_eq (y : Int) (want : Nat) (pm : Option Nat) (ocrDay : Int) (target : PyDate)
    (b : Option (Int × PyDate)) (delta : Int) :
    repairStep y want pm ocrDay target (b.map half2Q) delta =
      (repairStepH y want pm ocrDay target b delta).map half2Q := by
  unfold repairStep repairStepH
  dsimp only
  by_cases h1 : (target.addDays delta).year ≠ y
  · rw [if_pos h1, if_pos h1]
  rw [if_neg h1, if_neg h1]
  by_cases h2 : (target.addDays delta).weekday ≠ want
  · rw [if_pos h2, if_pos h2]
  rw [if_neg h2, if_neg h2]
  rcases b with _ | p
  · dsimp only [Option.map, half2Q]
    rw [repairScoreH_eq]
  · dsimp only [Option.map, half2Q]
    have hcmp : (repairScore pm ocrDay target delta < (p.1 : ℚ) / 2) ↔
        (repairScoreH pm ocrDay target delta < p.1) := by
      rw [repairScoreH_eq, div_lt_div_iff_of_pos_right (by norm_num : (0 : ℚ) < 2), Int.cast_lt]
    by_cases hlt : repairScoreH pm ocrDay target delta < p.1
    · rw [if_pos (hcmp.mpr hlt), if_pos hlt]
      dsimp only [Option.map, half2Q]
      rw [repairScoreH_eq]
    · rw [if_neg (fun hc => hlt (hcmp.mp hc)), if_neg hlt]

theorem repairFoldH_eq (y : Int) (want : Nat) (pm : Option Nat) (ocrDay : Int) (target : PyDate)
    (l : List Int) (b : Option (Int × PyDate)) :
    l.foldl (repairStep y want pm ocrDay target) (b.map half2Q) =
      (l.foldl (repairStepH y want pm ocrDay target) b).map half2Q := by
  induction l generalizing b with
  | nil => rfl
  | cons a l ih =>
    simp only [List.foldl_cons]
    rw [repairStepH_eq, ih]

theorem repair_eq_H (c : DateCandidate) (prev : PyDate) (policy : DatePolicy) :
    repair_with_context c prev policy = repair_with_contextH c prev policy := by
  unfold repair_with_context repair_with_contextH
  rcases hdw : _dow_to_wanted c.dow with _ | want
  · rfl
  rcases hy : pyInt c.year_token with _ | y
  · rfl
  rcases hd : pyInt c.day_token with _ | ocrDay
  · rfl
  dsimp only
  have hf : (repairWindow policy).foldl
      (repairStep y want (_month_token_to_int c.month_token) ocrDay (prev.addDays 1))
      Option.none =
      Option.map half2Q ((repairWindow policy).foldl
        (repairStepH y want (_month_token_to_int c.month_token) ocrDay (prev.addDays 1))
        Option.none) := by
    simpa using repairFoldH_eq y want (_month_token_to_int c.month_token) ocrDay
      (prev.addDays 1) (repairWindow policy) Option.none
  rw [hf]
  rcases (repairWindow policy).foldl
      (repairStepH y want (_month_token_to_int c.month_token) ocrDay (prev.addDays 1))
      Option.none with _ | sd
  · rfl
  · dsimp only [Option.map, half2Q]
    by_cases h7 : 7 < (sd.2.ord - (prev.addDays 1).ord).natAbs
    · rw [if_pos h7, if_pos h7]
    · rw [if_neg h7, if_neg h7, conf_eq]

/-- Membership in a Python integer range. -/
theorem mem_rangeIntAux (n : Nat) (lo δ : Int) :
    δ ∈ rangeIntAux n lo ↔ lo ≤ δ ∧ δ < lo + n := by
  induction n generalizing lo with
  | zero => simp [rangeIntAux]
  | succ n ih =>
    simp only [rangeIntAux, List.mem_cons, ih]
    constructor
    · rintro (rfl | ⟨h1, h2⟩) <;> push_cast <;> omega
    · rintro ⟨h1, h2⟩
      rcases eq_or_lt_of_le h1 with rfl | hlt
      · exact Or.inl rfl
      · exact Or.inr ⟨by omega, by push_cast at h2 ⊢; omega⟩

theorem mem_rangeInt (lo hi δ : Int) : δ ∈ rangeInt lo hi ↔ lo ≤ δ ∧ δ < hi := by
  unfold rangeInt
  rw [mem_rangeIntAux]
  omega

theorem rangeIntAux_pairwise (n : Nat) (lo : Int) :
    (rangeIntAux n lo).Pairwise (· < ·) := by
  induction n generalizing lo with
  | zero => exact List.Pairwise.nil
  | succ n ih =>
    refine List.Pairwise.cons (fun δ hδ => ?_) (ih (lo + 1))
    rw [mem_rangeIntAux] at hδ
    omega

theorem rangeInt_pairwise (lo hi : Int) : (rangeInt lo hi).Pairwise (· < ·) :=
  rangeIntAux_pairwise _ _

theorem mem_rangeNatAux (n lo j : Nat) :
    j ∈ rangeNatAux n lo ↔ lo ≤ j ∧ j < lo + n := by
  induction n generalizing lo with
  | zero => simp [rangeNatAux]
  | succ n ih =>
    simp only [rangeNatAux, List.mem_cons, ih]
    omega

theorem mem_rangeNat (lo hi j : Nat) : j ∈ rangeNat lo hi ↔ lo ≤ j ∧ j < hi := by
  unfold rangeNat
  rw [mem_rangeNatAux]
  omega

/-- Peeling the first element off a nonempty `rangeNat`. -/
theorem rangeNat_peel (lo hi : Nat) (h : lo < hi) :
    rangeNat lo hi = lo :: rangeNat (lo + 1) hi := by
  unfold rangeNat
  have hn : hi - lo = (hi - (lo + 1)) + 1 := by omega
  rw [hn]
  rfl

/-- What the `best`-tracking loop of `repair_with_context` computes: `none`
exactly when no offset qualifies; otherwise the date of the first qualifying
offset attaining the minimal score, together with that score. -/
theorem repairFold_spec (y : Int) (want : Nat) (pm : Option Nat) (ocrDay : Int)
    (target : PyDate) (l : List Int) :
    (l.foldl (repairStep y want pm ocrDay target) Option.none = Option.none →
      ∀ δ ∈ l, ¬ RQual y want target δ) ∧
    (∀ s d, l.foldl (repairStep y want pm ocrDay target) Option.none = some (s, d) →
      ∃ l1 δ l2, l = l1 ++ δ :: l2 ∧ RQual y want target δ ∧
        s = repairScore pm ocrDay target δ ∧ d = target.addDays δ ∧
        (∀ δ' ∈ l1, RQual y want target δ' → s < repairScore pm ocrDay target δ') ∧
        (∀ δ' ∈ l2, RQual y want target δ' → s ≤ repairScore pm ocrDay target δ')) := by
  induction l using List.reverseRecOn with
  | nil => exact ⟨fun _ δ h => absurd h (List.not_mem_nil δ), fun s d h => by cases h⟩
  | append_singleton l' b ih =>
    rw [List.foldl_append]
    simp only [List.foldl_cons, List.foldl_nil]
    have hstep : ∀ acc, repairStep y want pm ocrDay target acc b =
        if RQual y want target b then
          (match acc with
           | Option.none => some (repairScore pm ocrDay target b, target.addDays b)
           | some bb => if repairScore pm ocrDay target b < bb.1 then
               some (repairScore pm ocrDay target b, target.addDays b) else acc)
        else acc := by
      intro acc
      unfold repairStep RQual
      by_cases h1 : (target.addDays b).year ≠ y
      · rw [if_pos h1, if_neg (by tauto)]
      by_cases h2 : (target.addDays b).weekday ≠ want
      · rw [if_neg h1, if_pos h2, if_neg (by tauto)]
      rw [if_neg h1, if_neg h2, if_pos (by tauto)]
    rcases hacc : l'.foldl (repairStep y want pm ocrDay target) Option.none with _ | sd
    · have hnone := ih.1 hacc
      rw [hstep]
      by_cases hq : RQual y want target b
      · rw [if_pos hq]
        refine ⟨nofun, fun s d h => ?_⟩
        cases h
        refine ⟨l', b, [], rfl, hq, rfl, rfl, ?_, ?_⟩
        · exact fun δ' hδ' hqδ' => absurd hqδ' (hnone δ' hδ')
        · exact fun δ' hδ' _ => absurd hδ' (List.not_mem_nil δ')
      · rw [if_neg hq]
        refine ⟨fun _ δ hδ => ?_, nofun⟩
        rcases List.mem_append.mp hδ with h | h
        · exact hnone δ h
        · rwa [List.mem_singleton.mp h]
    · obtain ⟨l1, δ, l2, hsplit, hqδ, hs, hd, hbefore, hafter⟩ :=
        ih.2 sd.1 sd.2 (by rw [hacc])
      rw [hstep]
      by_cases hq : RQual y want target b
      · rw [if_pos hq]
        dsimp only
        by_cases hlt : repairScore pm ocrDay target b < sd.1
        · rw [if_pos hlt]
          refine ⟨nofun, fun s d h => ?_⟩
          cases h
          refine ⟨l', b, [], rfl, hq, rfl, rfl, fun δ' hδ' hqδ' => ?_, ?_⟩
          · rw [hsplit] at hδ'
            rcases List.mem_append.mp hδ' with h | h
            · exact lt_trans hlt (hs ▸ hbefore δ' h hqδ')
            · rcases List.mem_cons.mp h with rfl | h
              · exact hs ▸ hlt
              · exact lt_of_lt_of_le hlt (hs ▸ hafter δ' h hqδ')
          · exact fun δ' hδ' _ => absurd hδ' (List.not_mem_nil δ')
        · rw [if_neg hlt]
          refine ⟨nofun, fun s d h => ?_⟩
          cases h
          refine ⟨l1, δ, l2 ++ [b], by rw [hsplit]; simp, hqδ, hs, hd,
            hbefore, fun δ' hδ' hqδ' => ?_⟩
          rcases List.mem_append.mp hδ' with h | h
          · exact hafter δ' h hqδ'
          · rw [List.mem_singleton.mp h]
            exact le_of_not_lt hlt
      · rw [if_neg hq]
        refine ⟨nofun, fun s d h => ?_⟩
        cases h
        refine ⟨l1, δ, l2 ++ [b], by rw [hsplit]; simp, hqδ, hs, hd,
          hbefore, fun δ' hδ' hqδ' => ?_⟩
        rcases List.mem_append.mp hδ' with h | h
        · exact hafter δ' h hqδ'
        · rw [List.mem_singleton.mp h] at hqδ'
          exact absurd hqδ' hq

theorem repairScore_nonneg (pm : Option Nat) (ocrDay : Int) (target : PyDate) (delta : Int) :
    0 ≤ repairScore pm ocrDay target delta := by
  unfold repairScore
  rcases pm with _ | m <;> dsimp only <;> split_ifs <;> positivity

/-- Characterisation of a successful `repair_with_context`: the produced
assignment comes from the first qualifying window offset of minimal score,
within 7 days of the target. -/
theorem repair_some_char (c : DateCandidate) (prev : PyDate) (policy : DatePolicy)
    (a : DateAssignment) (h : repair_with_context c prev policy = some a) :
    ∃ want y ocrDay δ,
      _dow_to_wanted c.dow = some want ∧ pyInt c.year_token = some y ∧
      pyInt c.day_token = some ocrDay ∧ δ ∈ repairWindow policy ∧
      RQual y want (prev.addDays 1) δ ∧ δ.natAbs ≤ 7 ∧
      a = ⟨some ((prev.addDays 1).addDays δ), DMethod.repaired,
        max (2 / 10) (1 - repairScore (_month_token_to_int c.month_token) ocrDay
          (prev.addDays 1) δ / 10), Option.none⟩ ∧
      (∀ δ' ∈ repairWindow policy, RQual y want (prev.addDays 1) δ' →
        repairScore (_month_token_to_int c.month_token) ocrDay (prev.addDays 1) δ ≤
          repairScore (_month_token_to_int c.month_token) ocrDay (prev.addDays 1) δ') ∧
      (∀ δ' ∈ repairWindow policy, RQual y want (prev.addDays 1) δ' →
        repairScore (_month_token_to_int c.month_token) ocrDay (prev.addDays 1) δ' =
          repairScore (_month_token_to_int c.month_token) ocrDay (prev.addDays 1) δ →
        δ ≤ δ') := by
  unfold repair_with_context at h
  rcases hdw : _dow_to_wanted c.dow with _ | want
  · rw [hdw] at h
    cases h
  rw [hdw] at h
  rcases hy : pyInt c.year_token with _ | y <;> rw [hy] at h
  · cases h
  rcases hdt : pyInt c.day_token with _ | ocrDay <;> rw [hdt] at h
  · cases h
  dsimp only at h
  rcases hfold : (repairWindow policy).foldl
      (repairStep y want (_month_token_to_int c.month_token) ocrDay (prev.addDays 1))
      Option.none with _ | sd <;> rw [hfold] at h
  · cases h
  dsimp only at h
  by_cases h7 : 7 < (sd.2.ord - (prev.addDays 1).ord).natAbs
  · rw [if_pos h7] at h
    cases h
  rw [if_neg h7] at h
  obtain ⟨l1, δ, l2, hsplit, hqδ, hs, hd, hbefore, hafter⟩ :=
    (repairFold_spec y want (_month_token_to_int c.month_token) ocrDay
      (prev.addDays 1) (repairWindow policy)).2 sd.1 sd.2 (by rw [hfold])
  have hmemδ : δ ∈ repairWindow policy := by
    rw [hsplit]
    simp
  have hδabs : δ.natAbs ≤ 7 := by
    rw [hd] at h7
    simp only [PyDate.addDays] at h7
    omega
  have hpw := rangeInt_pairwise (-policy.max_window_days) (policy.max_window_days + 1)
  rw [show rangeInt (-policy.max_window_days) (policy.max_window_days + 1) =
      repairWindow policy from rfl, hsplit] at hpw
  obtain ⟨hl1, hrest⟩ := List.pairwise_append.mp hpw
  refine ⟨want, y, ocrDay, δ, rfl, rfl, rfl, hmemδ, hqδ, hδabs, ?_, ?_, ?_⟩
  · injection h with h2
    subst h2
    rw [hs, hd]
  · intro δ' hmem' hq'
    rw [hsplit] at hmem'
    rcases List.mem_append.mp hmem' with hm | hm
    · exact le_of_lt (hs ▸ hbefore δ' hm hq')
    · rcases List.mem_cons.mp hm with rfl | hm
      · exact le_refl _
      · exact hs ▸ hafter δ' hm hq'
  · intro δ' hmem' hq' heq
    rw [hsplit] at hmem'
    rcases List.mem_append.mp hmem' with hm | hm
    · exact absurd (heq ▸ hs ▸ hbefore δ' hm hq') (lt_irrefl _)
    · rcases List.mem_cons.mp hm with rfl | hm
      · exact le_refl _
      · exact le_of_lt (List.rel_of_pairwise_cons hrest.1 hm)

/-- The `none` outcomes of `repair_with_context`: no qualifying window
offset, or the best-scoring candidate lies more than 7 days from target. -/
theorem repair_none_char (c : DateCandidate) (prev : PyDate) (policy : DatePolicy)
    (want : Nat) (y ocrDay : Int) (hdw : _dow_to_wanted c.dow = some want)
    (hy : pyInt c.year_token = some y) (hdt : pyInt c.day_token = some ocrDay) :
    ((∀ δ ∈ repairWindow policy, ¬ RQual y want (prev.addDays 1) δ) →
      repair_with_context c prev policy = Option.none) ∧
    (∀ s d, (repairWindow policy).foldl
        (repairStep y want (_month_token_to_int c.month_token) ocrDay (prev.addDays 1))
        Option.none = some (s, d) →
      7 < (d.ord - (prev.addDays 1).ord).natAbs →
      repair_with_context c prev policy = Option.none) := by
  constructor
  · intro hnoq
    unfold repair_with_context
    rw [hdw, hy, hdt]
    dsimp only
    rcases hfold : (repairWindow policy).foldl
        (repairStep y want (_month_token_to_int c.month_token) ocrDay (prev.addDays 1))
        Option.none with _ | sd
    · rfl
    · obtain ⟨l1, δ, l2, hsplit, hqδ, _, _, _, _⟩ :=
        (repairFold_spec y want (_month_token_to_int c.month_token) ocrDay
          (prev.addDays 1) (repairWindow policy)).2 sd.1 sd.2 (by rw [hfold])
      exact absurd hqδ (hnoq δ (by rw [hsplit]; simp))
  · intro s d hfold h7
    unfold repair_with_context
    rw [hdw, hy, hdt]
    dsimp only
    rw [hfold]
    dsimp only
    rw [if_pos h7]

/-- C2: whenever `repair_with_context` returns an assignment, the returned
date matches the candidate weekday and year token, lies at most 7 days from
`target = prev + 1 day`, and carries `method = repaired` with
`confidence = max(0.2, 1.0 - score/10.0)` for the minimal window score;
it returns `none` when no window date matches year and weekday, or when the
best-scoring date lies more than 7 days from target. -/
theorem claim_C2 (c : DateCandidate) (prev : PyDate) (policy : DatePolicy) :
    (∀ a, repair_with_context c prev policy = some a →
      ∃ want y ocrDay dd,
        _dow_to_wanted c.dow = some want ∧ pyInt c.year_token = some y ∧
        pyInt c.day_token = some ocrDay ∧
        a.d = some dd ∧ a.method = DMethod.repaired ∧ a.note = Option.none ∧
        dd.weekday = want ∧ dd.year = y ∧
        (dd.ord - (prev.addDays 1).ord).natAbs ≤ 7 ∧
        (∃ δ, δ ∈ repairWindow policy ∧ dd = (prev.addDays 1).addDays δ ∧
          a.confidence = max (2 / 10)
            (1 - repairScore (_month_token_to_int c.month_token) ocrDay
              (prev.addDays 1) δ / 10) ∧
          (∀ δ' ∈ repairWindow policy, RQual y want (prev.addDays 1) δ' →
            repairScore (_month_token_to_int c.month_token) ocrDay (prev.addDays 1) δ ≤
              repairScore (_month_token_to_int c.month_token) ocrDay
                (prev.addDays 1) δ'))) ∧
    (∀ want y ocrDay, _dow_to_wanted c.dow = some want → pyInt c.year_token = some y →
      pyInt c.day_token = some ocrDay →
      ((∀ δ ∈ repairWindow policy, ¬ RQual y want (prev.addDays 1) δ) →
        repair_with_context c prev policy = Option.none) ∧
      (∀ s d, (repairWindow policy).foldl
          (repairStep y want (_month_token_to_int c.month_token) ocrDay (prev.addDays 1))
          Option.none = some (s, d) →
        7 < (d.ord - (prev.addDays 1).ord).natAbs →
        repair_with_context c prev policy = Option.none)) := by
  constructor
  · intro a h
    obtain ⟨want, y, ocrDay, δ, hdw, hy, hdt, hmem, hq, habs, ha, hmin, _⟩ :=
      repair_some_char c prev policy a h
    subst ha
    refine ⟨want, y, ocrDay, (prev.addDays 1).addDays δ, hdw, hy, hdt, rfl, rfl, rfl,
      hq.2, hq.1, ?_, δ, hmem, rfl, rfl, hmin⟩
    simp only [PyDate.addDays]
    omega
  · intro want y ocrDay hdw hy hdt
    exact repair_none_char c prev policy want y ocrDay hdw hy hdt

/-- C2 witness: the spec's worked example; previous date 2025-01-10,
candidate Sunday January 27 2025, repaired to 2025-01-12 with score 3. -/
theorem claim_C2_witness :
    ∃ want y ocrDay dd,
      _dow_to_wanted candSun.dow = some want ∧ pyInt candSun.year_token = some y ∧
      pyInt candSun.day_token = some ocrDay ∧
      (some (pyd 2025 1 12) : Option PyDate) = some dd ∧
      DMethod.repaired = DMethod.repaired ∧ (Option.none : Option String) = Option.none ∧
      dd.weekday = want ∧ dd.year = y ∧
      (dd.ord - ((pyd 2025 1 10).addDays 1).ord).natAbs ≤ 7 ∧
      (∃ δ, δ ∈ repairWindow defaultPolicy ∧
        dd = ((pyd 2025 1 10).addDays 1).addDays δ ∧
        mkRat 14 20 = max (2 / 10)
          (1 - repairScore (_month_token_to_int candSun.month_token) ocrDay
            ((pyd 2025 1 10).addDays 1) δ / 10) ∧
        (∀ δ' ∈ repairWindow defaultPolicy,
          RQual y want ((pyd 2025 1 10).addDays 1) δ' →
          repairScore (_month_token_to_int candSun.month_token) ocrDay
              ((pyd 2025 1 10).addDays 1) δ ≤
            repairScore (_month_token_to_int candSun.month_token) ocrDay
              ((pyd 2025 1 10).addDays 1) δ')) :=
  (claim_C2 candSun (pyd 2025 1 10) defaultPolicy).1
    ⟨some (pyd 2025 1 12), DMethod.repaired, mkRat 14 20, Option.none⟩
    (by rw [repair_eq_H]; decide)

/-- C3 counterexample: prev 2025-01-28, candidate Saturday January 1 2025.
Window offsets `-4` (2025-01-25) and `+3` (2025-02-01) both attain the
minimal score 6, but the code selects offset `-4`, whose absolute value is
the larger of the two — refuting "smaller absolute offset wins". -/
theorem claim_C3_cex :
    repair_with_context candSat (pyd 2025 1 28) defaultPolicy =
      some ⟨some (pyd 2025 1 25), DMethod.repaired, mkRat 8 20, Option.none⟩ ∧
    pyd 2025 1 25 = ((pyd 2025 1 28).addDays 1).addDays (-4) ∧
    pyd 2025 2 1 = ((pyd 2025 1 28).addDays 1).addDays 3 ∧
    RQual 2025 5 ((pyd 2025 1 28).addDays 1) (-4) ∧
    RQual 2025 5 ((pyd 2025 1 28).addDays 1) 3 ∧
    repairScore (some 1) 1 ((pyd 2025 1 28).addDays 1) (-4) = 6 ∧
    repairScore (some 1) 1 ((pyd 2025 1 28).addDays 1) 3 = 6 ∧
    (∀ δ ∈ repairWindow defaultPolicy, RQual 2025 5 ((pyd 2025 1 28).addDays 1) δ →
      6 ≤ repairScore (some 1) 1 ((pyd 2025 1 28).addDays 1) δ) ∧
    (3 : Int).natAbs < (-4 : Int).natAbs ∧
    pyd 2025 1 25 ≠ pyd 2025 2 1 := by
  have hs1 : repairScoreH (some 1) 1 ((pyd 2025 1 28).addDays 1) (-4) = 12 := by decide
  have hs2 : repairScoreH (some 1) 1 ((pyd 2025 1 28).addDays 1) 3 = 12 := by decide
  have hall : ∀ δ ∈ repairWindow defaultPolicy,
      RQual 2025 5 ((pyd 2025 1 28).addDays 1) δ →
      12 ≤ repairScoreH (some 1) 1 ((pyd 2025 1 28).addDays 1) δ := by decide
  refine ⟨by rw [repair_eq_H]; decide, by decide, by decide, by decide, by decide,
    ?_, ?_, ?_, by decide, by decide⟩
  · rw [repairScoreH_eq, hs1]
    norm_num
  · rw [repairScoreH_eq, hs2]
    norm_num
  · intro δ hmem hq
    rw [repairScoreH_eq]
    have h12 : (12 : ℚ) ≤ (repairScoreH (some 1) 1 ((pyd 2025 1 28).addDays 1) δ : ℚ) := by
      exact_mod_cast hall δ hmem hq
    linarith

/-- C3 amended: among window offsets attaining the minimal score, the code
selects the first one found in ascending offset order — the least offset —
which need not be the one of smallest absolute value. -/
theorem claim_C3 (c : DateCandidate) (prev : PyDate) (policy : DatePolicy)
    (a : DateAssignment) (dd : PyDate) (h : repair_with_context c prev policy = some a)
    (hdd : a.d = some dd) :
    ∃ want y ocrDay δ,
      _dow_to_wanted c.dow = some want ∧ pyInt c.year_token = some y ∧
      pyInt c.day_token = some ocrDay ∧
      δ ∈ repairWindow policy ∧ dd = (prev.addDays 1).addDays δ ∧
      RQual y want (prev.addDays 1) δ ∧
      (∀ δ' ∈ repairWindow policy, RQual y want (prev.addDays 1) δ' →
        repairScore (_month_token_to_int c.month_token) ocrDay (prev.addDays 1) δ' =
          repairScore (_month_token_to_int c.month_token) ocrDay (prev.addDays 1) δ →
        δ ≤ δ') := by
  obtain ⟨want, y, ocrDay, δ, hdw, hy, hdt, hmem, hq, _, ha, _, hfirst⟩ :=
    repair_some_char c prev policy a h
  subst ha
  simp only at hdd
  injection hdd with hdd2
  exact ⟨want, y, ocrDay, δ, hdw, hy, hdt, hmem, hdd2.symm, hq, hfirst⟩

/-- C3 witness: at the counterexample input the theorem instantiates with
the selected offset `-4`. -/
theorem claim_C3_witness :
    ∃ want y ocrDay δ,
      _dow_to_wanted candSat.dow = some want ∧ pyInt candSat.year_token = some y ∧
      pyInt candSat.day_token = some ocrDay ∧
      δ ∈ repairWindow defaultPolicy ∧
      pyd 2025 1 25 = ((pyd 2025 1 28).addDays 1).addDays δ ∧
      RQual y want ((pyd 2025 1 28).addDays 1) δ ∧
      (∀ δ' ∈ repairWindow defaultPolicy, RQual y want ((pyd 2025 1 28).addDays 1) δ' →
        repairScore (_month_token_to_int candSat.month_token) ocrDay
            ((pyd 2025 1 28).addDays 1) δ' =
          repairScore (_month_token_to_int candSat.month_token) ocrDay
            ((pyd 2025 1 28).addDays 1) δ →
        δ ≤ δ') :=
  claim_C3 candSat (pyd 2025 1 28) defaultPolicy
    ⟨some (pyd 2025 1 25), DMethod.repaired, mkRat 8 20, Option.none⟩ (pyd 2025 1 25)
    (by rw [repair_eq_H]; decide) rfl

/-! ### Weekday reconciler -/

theorem dow_wanted_lt7 (dow : String) (w : Nat) (h : _dow_to_wanted dow = some w) : w < 7 := by
  unfold _dow_to_wanted at h
  dsimp only at h
  split_ifs at h <;> (injection h with h2; omega)

/-- Within the `[-3, +3]` window an offset with a given weekday is unique,
and when the stated weekday differs from the date's, one exists. -/
theorem dow_offset_unique (d : PyDate) (w : Nat) (hw : w < 7) (hne : d.weekday ≠ w) :
    ∃ δ : Int, (-3 ≤ δ ∧ δ ≤ 3 ∧ δ ≠ 0 ∧ (d.addDays δ).weekday = w) ∧
      ∀ δ' : Int, -3 ≤ δ' → δ' ≤ 3 → δ' ≠ 0 → (d.addDays δ').weekday = w → δ' = δ := by
  simp only [PyDate.weekday, PyDate.addDays] at hne ⊢
  by_cases ht : ((w : Int) - (d.ord + 6)) % 7 ≤ 3
  · exact ⟨((w : Int) - (d.ord + 6)) % 7, by omega, fun δ' h1 h2 h3 h4 => by omega⟩
  · exact ⟨((w : Int) - (d.ord + 6)) % 7 - 7, by omega, fun δ' h1 h2 h3 h4 => by omega⟩

theorem foldmin_mem {α : Type} (f : α → α → α) (hf : ∀ b x, f b x = b ∨ f b x = x)
    (c : α) (cs : List α) : cs.foldl f c ∈ c :: cs := by
  induction cs generalizing c with
  | nil => exact List.mem_singleton.mpr rfl
  | cons x cs ih =>
    rw [List.foldl_cons]
    rcases List.mem_cons.mp (ih (f c x)) with h | h
    · rcases hf c x with h2 | h2 <;> rw [h, h2]
      · exact List.mem_cons_self _ _
      · exact List.mem_cons_of_mem _ (List.mem_cons_self _ _)
    · exact List.mem_cons_of_mem _ (List.mem_cons_of_mem _ h)

theorem mem_fixdow_candidates (d : PyDate) (w : Nat) (k : Int) (x : Int × PyDate) :
    x ∈ (rangeInt (-k) (k + 1)).filterMap
      (fun delta =>
        if delta = 0 then Option.none
        else if (d.addDays delta).weekday = w then some (delta, d.addDays delta)
        else Option.none) ↔
      (∃ δ', δ' ∈ rangeInt (-k) (k + 1) ∧ δ' ≠ 0 ∧ (d.addDays δ').weekday = w ∧
        x = (δ', d.addDays δ')) := by
  rw [List.mem_filterMap]
  constructor
  · rintro ⟨δ, hmem, hx⟩
    by_cases h0 : δ = 0
    · rw [if_pos h0] at hx
      cases hx
    rw [if_neg h0] at hx
    by_cases hwq : (d.addDays δ).weekday = w
    · rw [if_pos hwq] at hx
      exact ⟨δ, hmem, h0, hwq, (Option.some.inj hx).symm⟩
    · rw [if_neg hwq] at hx
      cases hx
  · rintro ⟨δ', h1, h2, h3, rfl⟩
    refine ⟨δ', h1, ?_⟩
    rw [if_neg h2, if_pos h3]

/-- When the stated weekday is valid and differs from the date's weekday,
`_fix_date_by_dow` returns the date at the unique qualifying offset. -/
theorem fixdow_char (d : PyDate) (dow : String) (w : Nat)
    (hdw : _dow_to_wanted dow = some w) (hne : d.weekday ≠ w) :
    ∃ δ, (-3 ≤ δ ∧ δ ≤ 3 ∧ δ ≠ 0 ∧ (d.addDays δ).weekday = w) ∧
      (∀ δ', -3 ≤ δ' → δ' ≤ 3 → δ' ≠ 0 → (d.addDays δ').weekday = w → δ' = δ) ∧
      _fix_date_by_dow d dow 3 = d.addDays δ := by
  obtain ⟨δ, hq, huniq⟩ := dow_offset_unique d w (dow_wanted_lt7 dow w hdw) hne
  refine ⟨δ, hq, huniq, ?_⟩
  unfold _fix_date_by_dow
  rw [hdw]
  dsimp only
  rw [if_neg hne]
  have hmemδ : (δ, d.addDays δ) ∈ (rangeInt (-3) (3 + 1)).filterMap
      (fun delta =>
        if delta = 0 then Option.none
        else if (d.addDays delta).weekday = w then some (delta, d.addDays delta)
        else Option.none) := by
    rw [mem_fixdow_candidates]
    exact ⟨δ, (mem_rangeInt _ _ _).mpr (by omega), hq.2.2.1, hq.2.2.2, rfl⟩
  rcases hc : (rangeInt (-3) (3 + 1)).filterMap
      (fun delta =>
        if delta = 0 then Option.none
        else if (d.addDays delta).weekday = w then some (delta, d.addDays delta)
        else Option.none) with _ | ⟨c0, cs⟩
  · rw [hc] at hmemδ
    cases hmemδ
  · dsimp only
    have hres : (cs.foldl (fun b x => if dowKeyLt x.1 b.1 then x else b) c0) ∈
        (rangeInt (-3) (3 + 1)).filterMap
          (fun delta =>
            if delta = 0 then Option.none
            else if (d.addDays delta).weekday = w then some (delta, d.addDays delta)
            else Option.none) := by
      rw [hc]
      exact foldmin_mem _
        (fun b x => by
          split_ifs
          · exact Or.inr rfl
          · exact Or.inl rfl) c0 cs
    rw [mem_fixdow_candidates] at hres
    obtain ⟨δ', hm1, hm2, hm3, hx⟩ := hres
    have hδeq : δ' = δ := by
      rw [mem_rangeInt] at hm1
      exact huniq δ' (by omega) (by omega) hm2 hm3
    rw [hx, hδeq]

/-- C5: the weekday reconciler returns the input unchanged on an invalid
weekday token or an already-matching weekday; otherwise it returns the date
at the qualifying offset in `[-3,+3] \ {0}` of smallest absolute value
(ties preferring the past); and on 2025-01-10 with "monday" it returns
2025-01-13. -/
theorem claim_C5 (d : PyDate) (dow : String) :
    (_dow_to_wanted dow = Option.none → _fix_date_by_dow d dow 3 = d) ∧
    (∀ w, _dow_to_wanted dow = some w → d.weekday = w → _fix_date_by_dow d dow 3 = d) ∧
    (∀ w, _dow_to_wanted dow = some w → d.weekday ≠ w →
      ∃ δ, (-3 ≤ δ ∧ δ ≤ 3 ∧ δ ≠ 0 ∧ (d.addDays δ).weekday = w) ∧
        _fix_date_by_dow d dow 3 = d.addDays δ ∧
        (∀ δ', -3 ≤ δ' → δ' ≤ 3 → δ' ≠ 0 → (d.addDays δ').weekday = w →
          δ.natAbs < δ'.natAbs ∨ (δ.natAbs = δ'.natAbs ∧ (δ' = δ ∨ δ < 0)))) ∧
    _fix_date_by_dow (pyd 2025 1 10) "monday" 3 = pyd 2025 1 13 := by
  refine ⟨?_, ?_, ?_, by decide⟩
  · intro h
    unfold _fix_date_by_dow
    rw [h]
  · intro w hdw heq
    unfold _fix_date_by_dow
    rw [hdw]
    dsimp only
    rw [if_pos heq]
  · intro w hdw hne
    obtain ⟨δ, hq, huniq, hout⟩ := fixdow_char d dow w hdw hne
    refine ⟨δ, hq, hout, fun δ' h1 h2 h3 h4 => ?_⟩
    rcases huniq δ' h1 h2 h3 h4 with rfl
    exact Or.inr ⟨rfl, Or.inl rfl⟩

/-- C5 witness: a case through the mismatching-weekday conjunct: 2025-01-10
(a Friday) with stated weekday "wednesday" moves to 2025-01-08. -/
theorem claim_C5_witness :
    ∃ δ, (-3 ≤ δ ∧ δ ≤ 3 ∧ δ ≠ 0 ∧ ((pyd 2025 1 10).addDays δ).weekday = 2) ∧
      _fix_date_by_dow (pyd 2025 1 10) "wednesday" 3 = (pyd 2025 1 10).addDays δ ∧
      (∀ δ', -3 ≤ δ' → δ' ≤ 3 → δ' ≠ 0 → ((pyd 2025 1 10).addDays δ').weekday = 2 →
        δ.natAbs < δ'.natAbs ∨ (δ.natAbs = δ'.natAbs ∧ (δ' = δ ∨ δ < 0))) :=
  (claim_C5 (pyd 2025 1 10) "wednesday").2.2.1 2 (by decide) (by decide)

/-- C10: for every date and valid stated weekday differing from the date's
weekday, exactly one offset in `[-3,+3] \ {0}` yields that weekday, so the
no-candidate fallback of `_fix_date_by_dow` is unreachable (the result is a
genuinely shifted date) and the tie-break never compares two offsets. -/
theorem claim_C10 (d : PyDate) (dow : String) (w : Nat)
    (hdw : _dow_to_wanted dow = some w) (hne : w ≠ d.weekday) :
    ∃ δ, (-3 ≤ δ ∧ δ ≤ 3 ∧ δ ≠ 0 ∧ (d.addDays δ).weekday = w) ∧
      (∀ δ', -3 ≤ δ' → δ' ≤ 3 → δ' ≠ 0 → (d.addDays δ').weekday = w → δ' = δ) ∧
      _fix_date_by_dow d dow 3 = d.addDays δ ∧
      _fix_date_by_dow d dow 3 ≠ d := by
  obtain ⟨δ, hq, huniq, hout⟩ := fixdow_char d dow w hdw (fun h => hne h.symm)
  refine ⟨δ, hq, huniq, hout, ?_⟩
  rw [hout]
  intro hcon
  have : d.ord + δ = d.ord := congrArg PyDate.ord hcon
  omega

/-- C10 witness: 2025-01-10 (a Friday) with stated weekday "monday". -/
theorem claim_C10_witness :
    ∃ δ, (-3 ≤ δ ∧ δ ≤ 3 ∧ δ ≠ 0 ∧ ((pyd 2025 1 10).addDays δ).weekday = 0) ∧
      (∀ δ', -3 ≤ δ' → δ' ≤ 3 → δ' ≠ 0 → ((pyd 2025 1 10).addDays δ').weekday = 0 →
        δ' = δ) ∧
      _fix_date_by_dow (pyd 2025 1 10) "monday" 3 = (pyd 2025 1 10).addDays δ ∧
      _fix_date_by_dow (pyd 2025 1 10) "monday" 3 ≠ pyd 2025 1 10 :=
  claim_C10 (pyd 2025 1 10) "monday" 0 (by decide) (by decide)

/-! ### Calendar normaliser -/

/-- The source's prefix-first month resolution equals the spec's
exact-name-first description. -/
theorem month_resolve_eq (tok : String) : _month_token_to_int tok = monthResolveSpec tok := by
  unfold _month_token_to_int monthResolveSpec
  rcases hn : normMonthTok tok with _ | t
  · rfl
  dsimp only
  rcases hl : monthLookup t with _ | n
  · by_cases hlen : 3 ≤ t.length
    · rw [if_pos hlen, if_pos hlen]
      rcases hf : MONTHS.find? (fun p => strStarts p.1 (⟨t.toList.take 3⟩ : String))
        with _ | p <;> rw [hf] <;> try rfl
    · rw [if_neg hlen, if_neg hlen]
      try rfl
  · by_cases hlen : 3 ≤ t.length
    · rw [if_pos hlen]
      unfold monthLookup at hl
      rcases hfind : MONTHS.find? (fun p => p.1 = t) with _ | p
      · rw [hfind] at hl
        simp at hl
      rw [hfind] at hl
      dsimp only [Option.map] at hl
      have hpred := List.find?_some hfind
      have hpt : p.1 = t := of_decide_eq_true hpred
      have hpm : p ∈ MONTHS := List.mem_of_find?_eq_some hfind
      have hn2 : p.2 = n := Option.some.inj hl
      subst hpt
      subst hn2
      simp only [MONTHS] at hpm
      fin_cases hpm <;> decide
    · rw [if_neg hlen]
      try rfl

/-- C6: `candidate_to_date` returns `none` exactly when the year or day
token is non-numeric, the month token does not resolve, or the triple is
not a valid calendar date (Feb 30 fails closed); otherwise it returns the
constructed date after weekday reconciliation.  Month resolution behaves
as the spec describes, with "Julz" giving July, "Jan" January, "zzz"
nothing. -/
theorem claim_C6 (c : DateCandidate) :
    (candidate_to_date c = Option.none ↔
      pyInt c.year_token = Option.none ∨ pyInt c.day_token = Option.none ∨
      _month_token_to_int c.month_token = Option.none ∨
      (∀ y da mo, pyInt c.year_token = some y → pyInt c.day_token = some da →
        _month_token_to_int c.month_token = some mo →
        mkDate y (mo : Int) da = Option.none)) ∧
    (∀ y da mo d, pyInt c.year_token = some y → pyInt c.day_token = some da →
      _month_token_to_int c.month_token = some mo → mkDate y (mo : Int) da = some d →
      candidate_to_date c = some (_fix_date_by_dow d c.dow 3)) ∧
    (∀ tok, _month_token_to_int tok = monthResolveSpec tok) ∧
    _month_token_to_int "Julz" = some 7 ∧ _month_token_to_int "Jan" = some 1 ∧
    _month_token_to_int "zzz" = Option.none ∧
    mkDate 2025 2 30 = Option.none := by
  refine ⟨?_, ?_, month_resolve_eq, by decide, by decide, by decide, by decide⟩
  · unfold candidate_to_date
    rcases hy : pyInt c.year_token with _ | y
    · simp [hy]
    rcases hda : pyInt c.day_token with _ | da
    · simp [hda]
    dsimp only
    rcases hmo : _month_token_to_int c.month_token with _ | mo
    · simp [hmo]
    dsimp only
    rcases hmk : mkDate y (mo : Int) da with _ | d
    · constructor
      · intro _
        refine Or.inr (Or.inr (Or.inr ?_))
        intro y2 da2 mo2 hy2 hda2 hmo2
        obtain rfl : y2 = y := (Option.some.inj hy2).symm
        obtain rfl : da2 = da := (Option.some.inj hda2).symm
        obtain rfl : mo2 = mo := (Option.some.inj hmo2).symm
        exact hmk
      · intro _
        rfl
    · constructor
      · intro h
        cases h
      · rintro (h | h | h | h)
        · cases h
        · cases h
        · cases h
        · exact absurd (h y da mo rfl rfl rfl) (by rw [hmk]; exact fun hc => by cases hc)
  · intro y da mo d hy hda hmo hmk
    unfold candidate_to_date
    rw [hy, hda]
    dsimp only
    simp only [hmo, hmk]

/-- C6 witness: the concrete candidate (friday, january, 10, 2025). -/
theorem claim_C6_witness :
    candidate_to_date ⟨"friday", "january", "10", "2025", ""⟩ =
      some (_fix_date_by_dow (pyd 2025 1 10) "friday" 3) :=
  (claim_C6 ⟨"friday", "january", "10", "2025", ""⟩).2.1 2025 10 1 (pyd 2025 1 10)
    (by decide) (by decide) (by decide) (by decide)

/-! ### Candidate parser -/

theorem scanLines_none (ls : List String) (h : ∀ l ∈ ls, matchDateLine l = Option.none) :
    scanLines ls = Option.none := by
  induction ls with
  | nil => rfl
  | cons ln rest ih =>
    unfold scanLines
    rw [h ln (List.mem_cons_self _ _)]
    exact ih fun l hl => h l (List.mem_cons_of_mem _ hl)

theorem scanLines_first (pre : List String) (ln : String) (post : List String)
    (g : String × String × String × String)
    (hpre : ∀ l ∈ pre, matchDateLine l = Option.none) (hln : matchDateLine ln = some g) :
    scanLines (pre ++ ln :: post) = some ⟨g.1, g.2.1, g.2.2.1, g.2.2.2, ln⟩ := by
  induction pre with
  | nil =>
    rw [List.nil_append]
    unfold scanLines
    rw [hln]
  | cons l0 rest ih =>
    rw [List.cons_append]
    unfold scanLines
    rw [hpre l0 (List.mem_cons_self _ _)]
    exact ih fun l hl => hpre l (List.mem_cons_of_mem _ hl)

/-- C8: the parser yields at most one candidate per page (an `Option`): a
two-line stitch when the first non-blank line is exactly a weekday token
and the concatenation with the second matches the header pattern; else the
first matching line among the first 10 non-blank lines; `none` when
nothing matches. -/
theorem claim_C8 (lines : List String) :
    (stripFilter lines = [] → parse_dow_month_day_year lines = Option.none) ∧
    (∀ l0 l1 rest g, stripFilter lines = l0 :: l1 :: rest → dowOnly l0 = true →
      matchDateLine (l0 ++ " " ++ l1) = some g →
      parse_dow_month_day_year lines =
        some ⟨g.1, g.2.1, g.2.2.1, g.2.2.2, l0 ++ " " ++ l1⟩) ∧
    (∀ l0 rest, stripFilter lines = l0 :: rest →
      (dowOnly l0 = false ∨ rest = [] ∨
        (∀ l1 rest2, rest = l1 :: rest2 → matchDateLine (l0 ++ " " ++ l1) = Option.none)) →
      (∀ pre ln post g, (stripFilter lines).take 10 = pre ++ ln :: post →
        (∀ l ∈ pre, matchDateLine l = Option.none) → matchDateLine ln = some g →
        parse_dow_month_day_year lines = some ⟨g.1, g.2.1, g.2.2.1, g.2.2.2, ln⟩) ∧
      ((∀ l ∈ (stripFilter lines).take 10, matchDateLine l = Option.none) →
        parse_dow_month_day_year lines = Option.none)) := by
  refine ⟨?_, ?_, ?_⟩
  · intro h
    unfold parse_dow_month_day_year
    rw [h]
    rfl
  · intro l0 l1 rest g hsf hdow hm
    unfold parse_dow_month_day_year
    rw [hsf]
    simp only [parseFiltered]
    rw [if_pos hdow, hm]
  · intro l0 rest hsf hnostitch
    have hfall : parse_dow_month_day_year lines = scanLines ((l0 :: rest).take 10) := by
      unfold parse_dow_month_day_year
      rw [hsf]
      rcases rest with _ | ⟨l1, rest2⟩
      · rfl
      rcases hnostitch with hd | hd | hd
      · simp only [parseFiltered]
        rw [hd]
        try rfl
      · cases hd
      · by_cases hdow : dowOnly l0
        · simp only [parseFiltered]
          rw [if_pos hdow, hd l1 rest2 rfl]
          try rfl
        · simp only [parseFiltered]
          rw [if_neg hdow]
          try rfl
    constructor
    · intro pre ln post g htake hpre hln
      rw [hfall, ← hsf, htake]
      exact scanLines_first pre ln post g hpre hln
    · intro hall
      rw [hfall, ← hsf]
      exact scanLines_none _ hall

/-- C8 witness: the weekday-alone OCR artifact is stitched: a blank line,
then " FRIDAY ", then "JANUARY 10, 2025". -/
theorem claim_C8_witness :
    parse_dow_month_day_year ["", " FRIDAY ", "JANUARY 10, 2025"] =
      some ⟨"FRIDAY", "JANUARY", "10", "2025", "FRIDAY JANUARY 10, 2025"⟩ :=
  (claim_C8 ["", " FRIDAY ", "JANUARY 10, 2025"]).2.1 "FRIDAY" "JANUARY 10, 2025" []
    ("FRIDAY", "JANUARY", "10", "2025") (by decide) (by decide) (by decide)

/-! ### Auto-mode detector -/

/-- Invariant of the `auto_detect_date_mode` scan loop: while the running
hit count is below the threshold, the loop returns true exactly when the
remaining pages bring the total count up to the threshold. -/
theorem autoLoop_true_iff (policy : DatePolicy) (l : List Page) :
    ∀ hits : Nat, (hits : Int) < policy.auto_min_hits →
      (autoLoop policy hits l = true ↔
        policy.auto_min_hits ≤ (hits : Int) + (autoHitCount l : Int)) := by
  induction l with
  | nil =>
    intro hits hlt
    unfold autoLoop autoHitCount
    constructor
    · intro h
      cases h
    · intro h
      exfalso
      push_cast at h
      omega
  | cons p rest ih =>
    intro hits hlt
    have hcnt : autoHitCount (p :: rest) = (if autoHit p then 1 else 0) + autoHitCount rest :=
      rfl
    unfold autoLoop
    rcases hp : parse_dow_month_day_year ((pySplitlines p.text).take 10) with _ | cand
    · dsimp only
      have h0 : autoHit p = false := by
        unfold autoHit
        rw [hp]
      rw [ih hits hlt, hcnt, h0, if_neg Bool.false_ne_true]
      push_cast
      omega
    · dsimp only
      by_cases hdate : (candidate_to_date cand).isSome
      · have h1 : autoHit p = true := by
          unfold autoHit
          rw [hp]
          exact hdate
        rw [hcnt, h1, if_pos rfl, hdate, if_pos rfl]
        by_cases hreach : policy.auto_min_hits ≤ ((hits + 1 : Nat) : Int)
        · rw [if_pos hreach]
          refine ⟨fun _ => ?_, fun _ => rfl⟩
          push_cast at hreach ⊢
          omega
        · rw [if_neg hreach]
          rw [ih (hits + 1) (by push_cast at hreach ⊢; omega)]
          push_cast
          omega
      · have h0 : autoHit p = false := by
          unfold autoHit
          rw [hp]
          simpa using hdate
        rw [hcnt, h0, if_neg Bool.false_ne_true]
        rw [show ((candidate_to_date cand).isSome) = false from by simpa using hdate,
          if_neg Bool.false_ne_true]
        rw [if_neg (by omega)]
        rw [ih hits hlt]
        push_cast
        omega

/-- C9 counterexample: with `auto_min_hits = 0` the hit count (0) already
meets the threshold, yet `auto_detect_date_mode` returns false on an empty
page list. -/
theorem claim_C9_cex :
    auto_detect_date_mode [] ⟨true, true, 14, 0, 20⟩ = false ∧
    (⟨true, true, 14, 0, 20⟩ : DatePolicy).auto_min_hits ≤
      (autoHitCount (pySlice (⟨true, true, 14, 0, 20⟩ : DatePolicy).auto_scan_pages
        ([] : List Page)) : Int) := by
  constructor
  · rfl
  · decide

/-- C9 amended: for thresholds of at least one, `auto_detect_date_mode`
returns true exactly when the number of pages among the first
`auto_scan_pages` whose header parses and normalises to a date reaches
`auto_min_hits` (the short-circuiting scan and the total count agree). -/
theorem claim_C9 (pages : List Page) (policy : DatePolicy)
    (h1 : 1 ≤ policy.auto_min_hits) :
    auto_detect_date_mode pages policy = true ↔
      policy.auto_min_hits ≤
        (autoHitCount (pySlice policy.auto_scan_pages pages) : Int) := by
  unfold auto_detect_date_mode
  rw [autoLoop_true_iff policy (pySlice policy.auto_scan_pages pages) 0 (by omega)]
  push_cast
  omega

/-- C9 witness: a document with three parseable headers in its first pages
and the default threshold 3 returns true. -/
theorem claim_C9_witness :
    auto_detect_date_mode [pgOf "WEDNESDAY, JANUARY 1, 2025", pgOf "no",
        pgOf "THURSDAY, JANUARY 2, 2025", pgOf "FRIDAY, JANUARY 3, 2025"] defaultPolicy =
        true ↔
      defaultPolicy.auto_min_hits ≤
        (autoHitCount (pySlice defaultPolicy.auto_scan_pages
          [pgOf "WEDNESDAY, JANUARY 1, 2025", pgOf "no",
           pgOf "THURSDAY, JANUARY 2, 2025", pgOf "FRIDAY, JANUARY 3, 2025"]) : Int) :=
  claim_C9 [pgOf "WEDNESDAY, JANUARY 1, 2025", pgOf "no",
    pgOf "THURSDAY, JANUARY 2, 2025", pgOf "FRIDAY, JANUARY 3, 2025"] defaultPolicy
    (by decide)

/-! ### First pass of `assign_dates` -/

/-- C4 amended: when a page's header parses and normalises to a date `d`
that is implausible against `prev` (repair enabled, `(d-prev).days < 0` or
`> 3`) and `repair_with_context` declines, the page KEEPS its parsed date:
`method = parsed`, `confidence = 1.0`, and `prev` advances to `d`; the
`method = none` soft-failure outcome does not occur on this path. -/
theorem claim_C4 (policy : DatePolicy) (pv : PyDate) (p : Page) (rest : List Page)
    (cand : DateCandidate) (d : PyDate)
    (hparse : parse_dow_month_day_year ((pySplitlines p.text).take 10) = some cand)
    (hdate : candidate_to_date cand = some d)
    (hrep : policy.allow_repair = true)
    (himpl : d.ord - pv.ord < 0 ∨ 3 < d.ord - pv.ord)
    (hfail : repair_with_context cand pv policy = Option.none) :
    pass1 policy (some pv) (p :: rest) =
      ⟨some d, DMethod.parsed, 1, Option.none⟩ :: pass1 policy (some d) rest := by
  conv_lhs => unfold pass1
  rw [hparse]
  dsimp only
  rw [hdate]
  dsimp only
  rw [if_pos ⟨hrep, himpl⟩, hfail]
  try rfl

/-- C4 counterexample: the first page parses to 2025-01-10; the second,
"MONDAY, MARCH 15, 1999", normalises to the implausible 1999-03-15, the
repair window search declines (no 1999 date in a 2025 window), and the
page's resulting assignment is `method = parsed` with the implausible
date — not `method = none, date = null` as the claim states. -/
theorem claim_C4_cex :
    parse_dow_month_day_year ((pySplitlines (pgOf "MONDAY, MARCH 15, 1999").text).take 10) =
      some ⟨"MONDAY", "MARCH", "15", "1999", "MONDAY, MARCH 15, 1999"⟩ ∧
    candidate_to_date ⟨"MONDAY", "MARCH", "15", "1999", "MONDAY, MARCH 15, 1999"⟩ =
      some (pyd 1999 3 15) ∧
    defaultPolicy.allow_repair = true ∧
    (pyd 1999 3 15).ord - (pyd 2025 1 10).ord < 0 ∧
    repair_with_context ⟨"MONDAY", "MARCH", "15", "1999", "MONDAY, MARCH 15, 1999"⟩
      (pyd 2025 1 10) defaultPolicy = Option.none ∧
    assign_dates [pgOf "FRIDAY, JANUARY 10, 2025", pgOf "MONDAY, MARCH 15, 1999"]
        defaultPolicy =
      [⟨some (pyd 2025 1 10), DMethod.parsed, 1, Option.none⟩,
       ⟨some (pyd 1999 3 15), DMethod.parsed, 1, Option.none⟩] := by
  refine ⟨by decide, by decide, rfl, by decide, by decide, by decide⟩

/-- C4 witness: the amended theorem applied at the counterexample input. -/
theorem claim_C4_witness :
    pass1 defaultPolicy (some (pyd 2025 1 10)) [pgOf "MONDAY, MARCH 15, 1999"] =
      [⟨some (pyd 1999 3 15), DMethod.parsed, 1, Option.none⟩] :=
  claim_C4 defaultPolicy (pyd 2025 1 10) (pgOf "MONDAY, MARCH 15, 1999") []
    ⟨"MONDAY", "MARCH", "15", "1999", "MONDAY, MARCH 15, 1999"⟩ (pyd 1999 3 15)
    (by decide) (by decide) rfl (Or.inl (by decide)) (by decide)

/-! ### Output invariants of `assign_dates` -/

theorem noneAssign_inv : AssignInv noneAssign := by decide

theorem parsed_inv (d : PyDate) : AssignInv ⟨some d, DMethod.parsed, 1, Option.none⟩ := by
  unfold AssignInv
  refine ⟨?_, ?_, ?_, ?_, ?_⟩
  · simp
  · norm_num
  · norm_num
  · intro _
    rfl
  · intro _
    simp

theorem neighborFill_inv (f : PyDate) : AssignInv (neighborFill f) := by
  unfold AssignInv neighborFill
  dsimp only
  refine ⟨?_, ?_, ?_, ?_, ?_⟩
  · simp
  · decide
  · decide
  · intro h
    exact absurd h (by decide)
  · intro _
    simp

theorem trailingFill_inv (f : PyDate) : AssignInv (trailingFill f) := by
  unfold AssignInv trailingFill
  dsimp only
  refine ⟨?_, ?_, ?_, ?_, ?_⟩
  · simp
  · decide
  · decide
  · intro h
    exact absurd h (by decide)
  · intro _
    simp

theorem repair_inv (c : DateCandidate) (prev : PyDate) (policy : DatePolicy)
    (a : DateAssignment) (h : repair_with_context c prev policy = some a) : AssignInv a := by
  obtain ⟨want, y, ocrDay, δ, _, _, _, _, _, _, ha, _, _⟩ := repair_some_char c prev policy a h
  subst ha
  have hs := repairScore_nonneg (_month_token_to_int c.month_token) ocrDay (prev.addDays 1) δ
  unfold AssignInv
  dsimp only
  refine ⟨?_, ?_, ?_, ?_, ?_⟩
  · simp
  · exact le_trans (by norm_num) (le_max_left _ _)
  · refine max_le (by norm_num) ?_
    have h10 : (0 : ℚ) ≤ repairScore (_month_token_to_int c.month_token) ocrDay
        (prev.addDays 1) δ / 10 := by positivity
    linarith
  · intro hc
    exact absurd hc (by decide)
  · intro _
    simp

theorem pass1_length (policy : DatePolicy) (pages : List Page) :
    ∀ prev, (pass1 policy prev pages).length = pages.length := by
  induction pages with
  | nil => intro prev; rfl
  | cons p rest ih =>
    intro prev
    unfold pass1
    repeat' split
    all_goals simp only [List.length_cons, ih]

theorem pass1_inv (policy : DatePolicy) (pages : List Page) :
    ∀ prev a, a ∈ pass1 policy prev pages → AssignInv a := by
  induction pages with
  | nil =>
    intro prev a h
    cases h
  | cons p rest ih =>
    intro prev a h
    unfold pass1 at h
    rcases hp : parse_dow_month_day_year ((pySplitlines p.text).take 10) with _ | cand <;>
      rw [hp] at h <;> try dsimp only at h
    · rcases List.mem_cons.mp h with rfl | h2
      · exact noneAssign_inv
      · exact ih _ _ h2
    · rcases hd : candidate_to_date cand with _ | d <;> rw [hd] at h
      · try dsimp only at h
        rcases prev with _ | pv <;> (try dsimp only at h) <;>
          rcases List.mem_cons.mp h with rfl | h2
        · exact noneAssign_inv
        · exact ih _ _ h2
        · exact noneAssign_inv
        · exact ih _ _ h2
      · rcases prev with _ | pv <;> try dsimp only at h
        · rcases List.mem_cons.mp h with rfl | h2
          · exact parsed_inv d
          · exact ih _ _ h2
        · by_cases hcond : policy.allow_repair = true ∧
              (d.ord - pv.ord < 0 ∨ 3 < d.ord - pv.ord)
          · rw [if_pos hcond] at h
            rcases hr : repair_with_context cand pv policy with _ | rep <;> rw [hr] at h
            · try dsimp only at h
              rcases List.mem_cons.mp h with rfl | h2
              · exact parsed_inv d
              · exact ih _ _ h2
            · try dsimp only at h
              rcases hrd : rep.d with _ | dd <;> rw [hrd] at h <;> (try dsimp only at h) <;>
                rcases List.mem_cons.mp h with rfl | h2
              · exact parsed_inv d
              · exact ih _ _ h2
              · exact repair_inv cand pv policy a hr
              · exact ih _ _ h2
          · rw [if_neg hcond] at h
            rcases List.mem_cons.mp h with rfl | h2
            · exact parsed_inv d
            · exact ih _ _ h2

theorem fillStep_length (fill : DateAssignment) (l : List DateAssignment) (gi : Nat) :
    (fillStep fill l gi).length = l.length := by
  unfold fillStep
  rcases l.get? gi with _ | a
  · rfl
  · dsimp only
    split_ifs
    · rw [List.length_set]
    · rfl

theorem fillStep_mem (fill : DateAssignment) (l : List DateAssignment) (gi : Nat) :
    ∀ a ∈ fillStep fill l gi, a ∈ l ∨ a = fill := by
  intro a h
  unfold fillStep at h
  rcases hg : l.get? gi with _ | b <;> rw [hg] at h
  · exact Or.inl h
  · dsimp only at h
    split_ifs at h
    · exact List.mem_or_eq_of_mem_set h
    · exact Or.inl h

theorem fillRange_length (fill : DateAssignment) (idxs : List Nat) :
    ∀ l : List DateAssignment, (fillRange fill l idxs).length = l.length := by
  induction idxs with
  | nil =>
    intro l
    rfl
  | cons i rest ih =>
    intro l
    unfold fillRange
    rw [List.foldl_cons]
    have h2 := ih (fillStep fill l i)
    unfold fillRange at h2
    rw [h2, fillStep_length]

theorem fillRange_mem (fill : DateAssignment) (idxs : List Nat) :
    ∀ l : List DateAssignment, ∀ a ∈ fillRange fill l idxs, a ∈ l ∨ a = fill := by
  induction idxs with
  | nil => exact fun l a h => Or.inl h
  | cons i rest ih =>
    intro l a h
    unfold fillRange at h
    rw [List.foldl_cons] at h
    have h2 := ih (fillStep fill l i) a (by unfold fillRange; exact h)
    rcases h2 with h3 | h3
    · exact fillStep_mem fill l i a h3
    · exact Or.inr h3

theorem inferStep_length (known : List (Nat × PyDate)) (l : List DateAssignment) (k : Nat) :
    (inferStep known l k).length = l.length := by
  unfold inferStep
  rcases h0 : known.get? k with _ | p0
  · rfl
  rcases h1 : known.get? (k + 1) with _ | p1
  · rfl
  dsimp only
  by_cases hle : p1.1 ≤ p0.1 + 1
  · rw [if_pos hle]
  rw [if_neg hle]
  by_cases hg1 : p1.2.ord - p0.2.ord = 1
  · rw [if_pos hg1]
    exact fillRange_length _ _ _
  rw [if_neg hg1]
  by_cases hg2 : p1.2.ord - p0.2.ord = 2
  · rw [if_pos hg2]
    exact fillRange_length _ _ _
  rw [if_neg hg2]

theorem inferStep_mem (known : List (Nat × PyDate)) (l : List DateAssignment) (k : Nat) :
    ∀ a ∈ inferStep known l k,
      a ∈ l ∨ (∃ f, a = neighborFill f) := by
  intro a h
  unfold inferStep at h
  rcases h0 : known.get? k with _ | p0 <;> rw [h0] at h
  · exact Or.inl h
  rcases h1 : known.get? (k + 1) with _ | p1 <;> rw [h1] at h
  · exact Or.inl h
  dsimp only at h
  by_cases hle : p1.1 ≤ p0.1 + 1
  · rw [if_pos hle] at h
    exact Or.inl h
  rw [if_neg hle] at h
  by_cases hg1 : p1.2.ord - p0.2.ord = 1
  · rw [if_pos hg1] at h
    rcases fillRange_mem _ _ _ a h with h2 | h2
    · exact Or.inl h2
    · exact Or.inr ⟨p0.2, h2⟩
  rw [if_neg hg1] at h
  by_cases hg2 : p1.2.ord - p0.2.ord = 2
  · rw [if_pos hg2] at h
    rcases fillRange_mem _ _ _ a h with h2 | h2
    · exact Or.inl h2
    · exact Or.inr ⟨p0.2.addDays 1, h2⟩
  rw [if_neg hg2] at h
  exact Or.inl h

theorem inferGaps_length (l : List DateAssignment) : (inferGaps l).length = l.length := by
  unfold inferGaps
  have hfold : ∀ (ks : List Nat) (acc : List DateAssignment),
      (ks.foldl (inferStep (knownAux 0 l)) acc).length = acc.length := by
    intro ks
    induction ks with
    | nil => intro acc; rfl
    | cons k rest ih =>
      intro acc
      rw [List.foldl_cons, ih, inferStep_length]
  rcases hlast : (knownAux 0 l).getLast? with _ | lastP
  · dsimp only
    rw [hlast]
    exact hfold _ l
  · dsimp only
    rw [hlast]
    dsimp only
    rw [fillRange_length, hfold]

theorem inferGaps_mem (l : List DateAssignment) :
    ∀ a ∈ inferGaps l, a ∈ l ∨ (∃ f, a = neighborFill f) ∨ (∃ f, a = trailingFill f) := by
  intro a h
  unfold inferGaps at h
  dsimp only at h
  have hfold : ∀ (ks : List Nat) (acc : List DateAssignment) a,
      a ∈ ks.foldl (inferStep (knownAux 0 l)) acc →
      a ∈ acc ∨ (∃ f, a = neighborFill f) := by
    intro ks
    induction ks with
    | nil => exact fun acc a h => Or.inl h
    | cons k rest ih =>
      intro acc a h
      rw [List.foldl_cons] at h
      rcases ih (inferStep (knownAux 0 l) acc k) a h with h2 | h2
      · exact inferStep_mem _ _ _ a h2
      · exact Or.inr h2
  rcases hlast : (knownAux 0 l).getLast? with _ | lastP <;> rw [hlast] at h
  · rcases hfold _ l a h with h2 | h2
    · exact Or.inl h2
    · exact Or.inr (Or.inl h2)
  · dsimp only at h
    rcases fillRange_mem _ _ _ a h with h2 | h2
    · rcases hfold _ l a h2 with h3 | h3
      · exact Or.inl h3
      · exact Or.inr (Or.inl h3)
    · exact Or.inr (Or.inr ⟨lastP.2, h2⟩)

/-- C1: `assign_dates` returns one assignment per input page, in order, and
every produced assignment satisfies the data-model invariants:
`method = none ⇔ date = null`, `confidence ∈ [0,1]`,
`parsed ⇒ confidence = 1`, `repaired/inferred ⇒ date ≠ null`. -/
theorem claim_C1 (pages : List Page) (policy : DatePolicy) :
    (assign_dates pages policy).length = pages.length ∧
    ∀ a ∈ assign_dates pages policy, AssignInv a := by
  unfold assign_dates
  by_cases hinf : policy.allow_infer_continuations = false
  · rw [if_pos hinf]
    exact ⟨pass1_length policy pages Option.none, fun a h => pass1_inv policy pages _ a h⟩
  · rw [if_neg hinf]
    refine ⟨?_, ?_⟩
    · rw [inferGaps_length, pass1_length]
    · intro a h
      rcases inferGaps_mem _ a h with h2 | ⟨f, rfl⟩ | ⟨f, rfl⟩
      · exact pass1_inv policy pages _ a h2
      · exact neighborFill_inv f
      · exact trailingFill_inv f

/-- C1 witness: a concrete single-page run. -/
theorem claim_C1_witness :
    (assign_dates [pgOf "FRIDAY, JANUARY 10, 2025"] defaultPolicy).length = 1 ∧
    AssignInv ⟨some (pyd 2025 1 10), DMethod.parsed, 1, Option.none⟩ :=
  ⟨(claim_C1 [pgOf "FRIDAY, JANUARY 10, 2025"] defaultPolicy).1,
   (claim_C1 [pgOf "FRIDAY, JANUARY 10, 2025"] defaultPolicy).2 _ (by decide)⟩

/-! ### Pointwise characterisation of the second pass (for C7) -/

theorem get?_set_ne {α : Type} (l : List α) (i j : Nat) (x : α) (h : i ≠ j) :
    (l.set i x).get? j = l.get? j := by
  induction l generalizing i j with
  | nil => rfl
  | cons a rest ih =>
    cases i with
    | zero =>
      cases j with
      | zero => exact absurd rfl h
      | succ j2 => rfl
    | succ i2 =>
      cases j with
      | zero => rfl
      | succ j2 => exact ih i2 j2 (by omega)

theorem get?_set_self {α : Type} (l : List α) (i : Nat) (x : α) (h : i < l.length) :
    (l.set i x).get? i = some x := by
  induction l generalizing i with
  | nil => cases h
  | cons a rest ih =>
    cases i with
    | zero => rfl
    | succ i2 => exact ih i2 (Nat.lt_of_succ_lt_succ h)

theorem get?_some_of_lt {α : Type} (l : List α) (j : Nat) (h : j < l.length) :
    ∃ a, l.get? j = some a := by
  induction l generalizing j with
  | nil => cases h
  | cons a rest ih =>
    cases j with
    | zero => exact ⟨a, rfl⟩
    | succ j2 => exact ih j2 (Nat.lt_of_succ_lt_succ h)

theorem lt_of_get?_some {α : Type} (l : List α) (j : Nat) (a : α) (h : l.get? j = some a) :
    j < l.length := by
  induction l generalizing j with
  | nil => cases h
  | cons b rest ih =>
    cases j with
    | zero => exact Nat.succ_pos _
    | succ j2 => exact Nat.succ_lt_succ (ih j2 h)

/-- `fillRange` never touches an index outside `idxs`. -/
theorem fillRange_get?_not_mem (fill : DateAssignment) (idxs : List Nat) :
    ∀ (l : List DateAssignment) (j : Nat), j ∉ idxs →
      (fillRange fill l idxs).get? j = l.get? j := by
  induction idxs with
  | nil =>
    intro l j _
    rfl
  | cons i rest ih =>
    intro l j hj
    have hstep : fillRange fill l (i :: rest) = fillRange fill (fillStep fill l i) rest :=
      rfl
    rw [hstep, ih _ j fun hm => hj (List.mem_cons_of_mem _ hm)]
    unfold fillStep
    rcases hg : l.get? i with _ | a
    · rfl
    · dsimp only
      split_ifs
      · exact get?_set_ne l i j fill fun he => hj (he ▸ List.mem_cons_self i rest)
      · rfl

/-- `fillRange` never overwrites an entry that already carries a date. -/
theorem fillRange_get?_dated (fill : DateAssignment) (idxs : List Nat) :
    ∀ (l : List DateAssignment) (j : Nat) (a : DateAssignment),
      l.get? j = some a → a.d ≠ Option.none →
      (fillRange fill l idxs).get? j = some a := by
  induction idxs with
  | nil =>
    intro l j a hg _
    exact hg
  | cons i rest ih =>
    intro l j a hg had
    have hstep : fillRange fill l (i :: rest) = fillRange fill (fillStep fill l i) rest :=
      rfl
    rw [hstep]
    refine ih _ j a ?_ had
    unfold fillStep
    rcases hgi : l.get? i with _ | b
    · exact hg
    · dsimp only
      split_ifs with hbd
      · by_cases hji : j = i
        · subst hji
          rw [hg] at hgi
          obtain rfl := Option.some.inj hgi
          exact absurd hbd had
        · rw [get?_set_ne l i j fill fun he => hji he.symm]
          exact hg
      · exact hg

/-- `fillRange` fills an in-range dateless entry (for a dated fill value,
which is what both loops of the second pass use). -/
theorem fillRange_get?_fills (fill : DateAssignment) (hf : fill.d ≠ Option.none)
    (idxs : List Nat) :
    ∀ (l : List DateAssignment) (j : Nat) (a : DateAssignment), j ∈ idxs →
      l.get? j = some a → a.d = Option.none →
      (fillRange fill l idxs).get? j = some fill := by
  induction idxs with
  | nil =>
    intro l j a hm _ _
    cases hm
  | cons i rest ih =>
    intro l j a hm hg had
    have hstep : fillRange fill l (i :: rest) = fillRange fill (fillStep fill l i) rest :=
      rfl
    rw [hstep]
    by_cases hji : j = i
    · subst hji
      have hfs : fillStep fill l j = l.set j fill := by
        unfold fillStep
        rw [hg]
        dsimp only
        rw [if_pos had]
      have hset : (l.set j fill).get? j = some fill :=
        get?_set_self l j fill (lt_of_get?_some l j a hg)
      rw [hfs]
      exact fillRange_get?_dated fill rest _ j fill hset hf
    · have hmr : j ∈ rest := by
        rcases List.mem_cons.mp hm with h1 | h1
        · exact absurd h1 hji
        · exact h1
      refine ih _ j a hmr ?_ had
      unfold fillStep
      rcases hgi : l.get? i with _ | b
      · exact hg
      · dsimp only
        split_ifs
        · rw [get?_set_ne l i j fill fun he => hji he.symm]
          exact hg
        · exact hg

theorem getLast?_eq_get?MSJ {α : Type} : ∀ (l : List α), l.getLast? = l.get? (l.length - 1) := by
  intro l
  induction l with
  | nil => rfl
  | cons a rest ih =>
    cases rest with
    | nil => rfl
    | cons b rest2 =>
      rw [List.getLast?_cons_cons, ih]
      have h1 : (a :: b :: rest2).length - 1 = ((b :: rest2).length - 1) + 1 := by
        simp only [List.length_cons]
        omega
      rw [h1]
      rfl

/-- Every entry of `known` records a genuine dated position of the list. -/
theorem knownAux_mem_spec : ∀ (l : List DateAssignment) (i : Nat) (p : Nat × PyDate),
    p ∈ knownAux i l → i ≤ p.1 ∧ ∃ a, l.get? (p.1 - i) = some a ∧ a.d = some p.2 := by
  intro l
  induction l with
  | nil =>
    intro i p hp
    cases hp
  | cons a rest ih =>
    intro i p hp
    unfold knownAux at hp
    rcases hd : a.d with _ | d <;> rw [hd] at hp
    · obtain ⟨hle, b, hb, hbd⟩ := ih (i + 1) p hp
      refine ⟨by omega, b, ?_, hbd⟩
      have h2 : p.1 - i = (p.1 - (i + 1)) + 1 := by omega
      rw [h2]
      exact hb
    · dsimp only at hp
      rcases List.mem_cons.mp hp with h1 | h1
      · subst h1
        refine ⟨Nat.le_refl i, a, ?_, hd⟩
        show (a :: rest).get? (i - i) = some a
        rw [Nat.sub_self]
        rfl
      · obtain ⟨hle, b, hb, hbd⟩ := ih (i + 1) p h1
        refine ⟨by omega, b, ?_, hbd⟩
        have h2 : p.1 - i = (p.1 - (i + 1)) + 1 := by omega
        rw [h2]
        exact hb

/-- Every dated position of the list appears in `known`. -/
theorem knownAux_complete : ∀ (l : List DateAssignment) (i m : Nat) (a : DateAssignment)
    (d : PyDate), l.get? m = some a → a.d = some d → (i + m, d) ∈ knownAux i l := by
  intro l
  induction l with
  | nil =>
    intro i m a d hg _
    cases hg
  | cons b rest ih =>
    intro i m a d hg had
    unfold knownAux
    cases m with
    | zero =>
      obtain rfl := Option.some.inj hg
      rw [had]
      exact List.mem_cons_self _ _
    | succ m2 =>
      rcases hbd : b.d with _ | d2 <;> dsimp only
      · have h2 := ih (i + 1) m2 a d hg had
        have he : i + (m2 + 1) = (i + 1) + m2 := by omega
        rw [he]
        exact h2
      · have h2 := ih (i + 1) m2 a d hg had
        have he : i + (m2 + 1) = (i + 1) + m2 := by omega
        rw [he]
        exact List.mem_cons_of_mem _ h2

/-- The page indices recorded in `known` are strictly increasing. -/
theorem knownAux_pairwise : ∀ (l : List DateAssignment) (i : Nat),
    (knownAux i l).Pairwise (fun p q => p.1 < q.1) := by
  intro l
  induction l with
  | nil =>
    intro i
    exact List.Pairwise.nil
  | cons a rest ih =>
    intro i
    unfold knownAux
    rcases hd : a.d with _ | d
    · exact ih (i + 1)
    · dsimp only
      refine List.Pairwise.cons ?_ (ih (i + 1))
      intro q hq
      have h2 := (knownAux_mem_spec rest (i + 1) q hq).1
      dsimp only
      omega

theorem pairwise_get?_lt {α : Type} (R : α → α → Prop) :
    ∀ (l : List α), l.Pairwise R → ∀ t t' p p', t < t' →
      l.get? t = some p → l.get? t' = some p' → R p p' := by
  intro l
  induction l with
  | nil =>
    intro _ t t' p p' _ hg _
    cases hg
  | cons a rest ih =>
    intro hpw t t' p p' htt hg hg'
    rcases List.pairwise_cons.mp hpw with ⟨hhead, htail⟩
    cases t with
    | zero =>
      obtain rfl := Option.some.inj hg
      cases t' with
      | zero => omega
      | succ t2 => exact hhead p' (List.get?_mem hg')
    | succ t2 =>
      cases t' with
      | zero => omega
      | succ t3 => exact ih htail t2 t3 p p' (by omega) hg hg'

theorem knownAux_get?_mono (l : List DateAssignment) (t t' : Nat) (p p' : Nat × PyDate)
    (h : t < t') (hg : (knownAux 0 l).get? t = some p)
    (hg' : (knownAux 0 l).get? t' = some p') : p.1 < p'.1 :=
  pairwise_get?_lt _ _ (knownAux_pairwise l 0) t t' p p' h hg hg'

theorem knownAux_get?_mono_le (l : List DateAssignment) (t t' : Nat) (p p' : Nat × PyDate)
    (h : t ≤ t') (hg : (knownAux 0 l).get? t = some p)
    (hg' : (knownAux 0 l).get? t' = some p') : p.1 ≤ p'.1 := by
  rcases Nat.lt_or_ge t t' with hlt | hge
  · exact le_of_lt (knownAux_get?_mono l t t' p p' hlt hg hg')
  · have he : t = t' := by omega
    subst he
    rw [hg] at hg'
    obtain rfl := Option.some.inj hg'
    exact Nat.le_refl _

/-- Pages strictly between two consecutive known entries are dateless. -/
theorem knownAux_between_dateless (l : List DateAssignment) (k : Nat)
    (p0 p1 : Nat × PyDate) (hk0 : (knownAux 0 l).get? k = some p0)
    (hk1 : (knownAux 0 l).get? (k + 1) = some p1) (j : Nat) (hj0 : p0.1 < j)
    (hj1 : j < p1.1) (a : DateAssignment) (hg : l.get? j = some a) :
    a.d = Option.none := by
  rcases hd : a.d with _ | d
  · rfl
  exfalso
  have hmem : (0 + j, d) ∈ knownAux 0 l := knownAux_complete l 0 j a d hg hd
  rw [Nat.zero_add] at hmem
  obtain ⟨t, ht⟩ := List.get?_of_mem hmem
  rcases Nat.lt_trichotomy t (k + 1) with hlt | heq | hgt
  · rcases Nat.lt_or_ge t k with hlt2 | hge2
    · have h2 := knownAux_get?_mono l t k _ _ hlt2 ht hk0
      dsimp only at h2
      omega
    · have he : t = k := by omega
      subst he
      rw [hk0] at ht
      obtain rfl := Option.some.inj ht
      dsimp only at hj0
      omega
  · subst heq
    rw [hk1] at ht
    obtain rfl := Option.some.inj ht
    dsimp only at hj1
    omega
  · have h2 := knownAux_get?_mono l (k + 1) t _ _ hgt hk1 ht
    dsimp only at h2
    omega

/-- Pages after the last known entry are dateless. -/
theorem knownAux_after_last_dateless (l : List DateAssignment) (p : Nat × PyDate)
    (hlast : (knownAux 0 l).getLast? = some p) (j : Nat) (hj : p.1 < j)
    (a : DateAssignment) (hg : l.get? j = some a) : a.d = Option.none := by
  rcases hd : a.d with _ | d
  · rfl
  exfalso
  have hmem : (0 + j, d) ∈ knownAux 0 l := knownAux_complete l 0 j a d hg hd
  rw [Nat.zero_add] at hmem
  obtain ⟨t, ht⟩ := List.get?_of_mem hmem
  have hlast2 : (knownAux 0 l).get? ((knownAux 0 l).length - 1) = some p := by
    rw [← getLast?_eq_get?MSJ]
    exact hlast
  have htlen : t < (knownAux 0 l).length := lt_of_get?_some _ _ _ ht
  rcases Nat.lt_or_ge t ((knownAux 0 l).length - 1) with hlt | hge
  · have h2 := knownAux_get?_mono l t _ _ _ hlt ht hlast2
    dsimp only at h2
    omega
  · have he : t = (knownAux 0 l).length - 1 := by omega
    subst he
    rw [hlast2] at ht
    obtain rfl := Option.some.inj ht
    dsimp only at hj
    omega

theorem rangeNatAux_append (a b : Nat) :
    ∀ lo : Nat, rangeNatAux (a + b) lo = rangeNatAux a lo ++ rangeNatAux b (lo + a) := by
  induction a with
  | zero =>
    intro lo
    simp [rangeNatAux]
  | succ a2 ih =>
    intro lo
    have h1 : a2 + 1 + b = (a2 + b) + 1 := by omega
    rw [h1]
    show lo :: rangeNatAux (a2 + b) (lo + 1) =
      (lo :: rangeNatAux a2 (lo + 1)) ++ rangeNatAux b (lo + (a2 + 1))
    rw [ih (lo + 1)]
    have h2 : lo + 1 + a2 = lo + (a2 + 1) := by omega
    rw [h2]
    rfl

theorem rangeNat_append (lo mid hi : Nat) (h1 : lo ≤ mid) (h2 : mid ≤ hi) :
    rangeNat lo hi = rangeNat lo mid ++ rangeNat mid hi := by
  unfold rangeNat
  have h3 : hi - lo = (mid - lo) + (hi - mid) := by omega
  rw [h3, rangeNatAux_append]
  have h4 : lo + (mid - lo) = mid := by omega
  rw [h4]

theorem pairsFold_length (known : List (Nat × PyDate)) :
    ∀ (ks : List Nat) (acc : List DateAssignment),
      (ks.foldl (inferStep known) acc).length = acc.length := by
  intro ks
  induction ks with
  | nil =>
    intro acc
    rfl
  | cons k rest ih =>
    intro acc
    rw [List.foldl_cons, ih, inferStep_length]

/-- One pair step never overwrites an entry that already carries a date. -/
theorem inferStep_get?_dated (known : List (Nat × PyDate)) (acc : List DateAssignment)
    (k j : Nat) (a : DateAssignment) (hg : acc.get? j = some a)
    (had : a.d ≠ Option.none) : (inferStep known acc k).get? j = some a := by
  unfold inferStep
  rcases h0 : known.get? k with _ | p0
  · exact hg
  rcases h1 : known.get? (k + 1) with _ | p1
  · exact hg
  dsimp only
  by_cases hle : p1.1 ≤ p0.1 + 1
  · rw [if_pos hle]
    exact hg
  rw [if_neg hle]
  by_cases hg1 : p1.2.ord - p0.2.ord = 1
  · rw [if_pos hg1]
    exact fillRange_get?_dated _ _ acc j a hg had
  rw [if_neg hg1]
  by_cases hg2 : p1.2.ord - p0.2.ord = 2
  · rw [if_pos hg2]
    exact fillRange_get?_dated _ _ acc j a hg had
  rw [if_neg hg2]
  exact hg

theorem pairsFold_get?_dated (known : List (Nat × PyDate)) :
    ∀ (ks : List Nat) (acc : List DateAssignment) (j : Nat) (a : DateAssignment),
      acc.get? j = some a → a.d ≠ Option.none →
      (ks.foldl (inferStep known) acc).get? j = some a := by
  intro ks
  induction ks with
  | nil =>
    intro acc j a hg _
    exact hg
  | cons k rest ih =>
    intro acc j a hg had
    rw [List.foldl_cons]
    exact ih _ j a (inferStep_get?_dated known acc k j a hg had) had

/-- One pair step leaves every index outside its open interval unchanged. -/
theorem inferStep_get?_away (known : List (Nat × PyDate)) (acc : List DateAssignment)
    (k j : Nat)
    (haway : ∀ p0 p1, known.get? k = some p0 → known.get? (k + 1) = some p1 →
      j < p0.1 + 1 ∨ p1.1 ≤ j) :
    (inferStep known acc k).get? j = acc.get? j := by
  unfold inferStep
  rcases h0 : known.get? k with _ | p0
  · rfl
  rcases h1 : known.get? (k + 1) with _ | p1
  · rfl
  dsimp only
  by_cases hle : p1.1 ≤ p0.1 + 1
  · rw [if_pos hle]
  rw [if_neg hle]
  have hj := haway p0 p1 h0 h1
  have hnm : j ∉ rangeNat (p0.1 + 1) p1.1 := by
    rw [mem_rangeNat]
    omega
  by_cases hg1 : p1.2.ord - p0.2.ord = 1
  · rw [if_pos hg1]
    exact fillRange_get?_not_mem _ _ acc j hnm
  rw [if_neg hg1]
  by_cases hg2 : p1.2.ord - p0.2.ord = 2
  · rw [if_pos hg2]
    exact fillRange_get?_not_mem _ _ acc j hnm
  rw [if_neg hg2]

theorem pairsFold_get?_away (known : List (Nat × PyDate)) :
    ∀ (ks : List Nat) (acc : List DateAssignment) (j : Nat),
      (∀ k ∈ ks, ∀ p0 p1, known.get? k = some p0 → known.get? (k + 1) = some p1 →
        j < p0.1 + 1 ∨ p1.1 ≤ j) →
      (ks.foldl (inferStep known) acc).get? j = acc.get? j := by
  intro ks
  induction ks with
  | nil =>
    intro acc j _
    rfl
  | cons k rest ih =>
    intro acc j h
    rw [List.foldl_cons,
      ih _ j fun k2 hk2 => h k2 (List.mem_cons_of_mem _ hk2)]
    exact inferStep_get?_away known acc k j (h k (List.mem_cons_self _ _))

/-- C7: the second pass fills one-day gaps between consecutive known dates
with the earlier date and two-day gaps with its successor (method
`inferred`, confidence 0.3, note "neighbor-gap"), leaves any other gap
untouched (and those pages are dateless), never overwrites an assignment
that already carries a date, and gives every dateless page after the last
known date that date (method `inferred`, confidence 0.2, note "trailing").
With inference enabled, `assign_dates` is exactly this pass applied to the
first pass's output. -/
theorem claim_C7 (l : List DateAssignment) :
    (∀ pages policy, policy.allow_infer_continuations = true →
      assign_dates pages policy = inferGaps (pass1 policy Option.none pages)) ∧
    (∀ j a, l.get? j = some a → a.d ≠ Option.none → (inferGaps l).get? j = some a) ∧
    (∀ k i0 d0 i1 d1, (knownAux 0 l).get? k = some (i0, d0) →
      (knownAux 0 l).get? (k + 1) = some (i1, d1) →
      ∀ j, i0 < j → j < i1 →
        (d1.ord - d0.ord = 1 → (inferGaps l).get? j = some (neighborFill d0)) ∧
        (d1.ord - d0.ord = 2 →
          (inferGaps l).get? j = some (neighborFill (d0.addDays 1))) ∧
        (d1.ord - d0.ord ≠ 1 → d1.ord - d0.ord ≠ 2 →
          (inferGaps l).get? j = l.get? j ∧
          ∀ b, l.get? j = some b → b.d = Option.none)) ∧
    (∀ li ld, (knownAux 0 l).getLast? = some (li, ld) →
      ∀ j, li < j → j < l.length → (inferGaps l).get? j = some (trailingFill ld)) ∧
    (∀ f, neighborFill f = ⟨some f, DMethod.inferred, 3 / 10, some "neighbor-gap"⟩) ∧
    (∀ f, trailingFill f = ⟨some f, DMethod.inferred, 2 / 10, some "trailing"⟩) := by
  have h310 : (mkRat 3 10 : ℚ) = 3 / 10 := by
    rw [Rat.mkRat_eq_divInt, Rat.divInt_eq_div]
    norm_num
  have h210 : (mkRat 2 10 : ℚ) = 2 / 10 := by
    rw [Rat.mkRat_eq_divInt, Rat.divInt_eq_div]
    norm_num
  refine ⟨?_, ?_, ?_, ?_, ?_, ?_⟩
  · intro pages policy hpol
    unfold assign_dates
    dsimp only
    have hne : ¬ policy.allow_infer_continuations = false := by
      rw [hpol]
      intro hc
      cases hc
    rw [if_neg hne]
  · intro j a hg had
    unfold inferGaps
    dsimp only
    have ha1 := pairsFold_get?_dated (knownAux 0 l)
      (rangeNat 0 ((knownAux 0 l).length - 1)) l j a hg had
    rcases hlast : (knownAux 0 l).getLast? with _ | lastP
    · exact ha1
    · dsimp only
      exact fillRange_get?_dated _ _ _ j a ha1 had
  · intro k i0 d0 i1 d1 hk0 hk1 j hj0 hj1
    have hkl1 : k + 1 < (knownAux 0 l).length := lt_of_get?_some _ _ _ hk1
    have hsplit : rangeNat 0 ((knownAux 0 l).length - 1) =
        rangeNat 0 k ++ k :: rangeNat (k + 1) ((knownAux 0 l).length - 1) := by
      rw [rangeNat_append 0 k ((knownAux 0 l).length - 1) (Nat.zero_le k) (by omega),
        rangeNat_peel k _ (by omega)]
    have ha0 : ((rangeNat 0 k).foldl (inferStep (knownAux 0 l)) l).get? j = l.get? j := by
      refine pairsFold_get?_away _ _ _ _ ?_
      intro k2 hk2 p0 p1 h0 h1
      right
      have hk2lt : k2 < k := ((mem_rangeNat 0 k k2).mp hk2).2
      have hle : p1.1 ≤ i0 := knownAux_get?_mono_le l (k2 + 1) k _ _ (by omega) h1 hk0
      omega
    have hjlen : j < l.length := by
      obtain ⟨-, b, hb, -⟩ := knownAux_mem_spec l 0 (i1, d1) (List.get?_mem hk1)
      have h2 := lt_of_get?_some l _ _ hb
      have h3 : (i1, d1).1 - 0 = i1 := rfl
      rw [h3] at h2
      omega
    obtain ⟨a, hga⟩ := get?_some_of_lt l j hjlen
    have hal : a.d = Option.none := knownAux_between_dateless l k _ _ hk0 hk1 j hj0 hj1 a hga
    have hacc : ((rangeNat 0 k).foldl (inferStep (knownAux 0 l)) l).get? j = some a := by
      rw [ha0]
      exact hga
    refine ⟨?_, ?_, ?_⟩
    · intro hgap1
      have hstep : (inferStep (knownAux 0 l)
          ((rangeNat 0 k).foldl (inferStep (knownAux 0 l)) l) k).get? j =
          some (neighborFill d0) := by
        unfold inferStep
        rw [hk0, hk1]
        dsimp only
        rw [if_neg (by omega : ¬ i1 ≤ i0 + 1), if_pos hgap1]
        exact fillRange_get?_fills (neighborFill d0) (fun hc => Option.noConfusion hc)
          (rangeNat (i0 + 1) i1) _ j a ((mem_rangeNat _ _ _).mpr ⟨by omega, hj1⟩) hacc hal
      have hfin : ((rangeNat 0 ((knownAux 0 l).length - 1)).foldl
          (inferStep (knownAux 0 l)) l).get? j = some (neighborFill d0) := by
        rw [hsplit, List.foldl_append, List.foldl_cons]
        exact pairsFold_get?_dated _ _ _ j _ hstep (fun hc => Option.noConfusion hc)
      unfold inferGaps
      dsimp only
      rcases hlast : (knownAux 0 l).getLast? with _ | lastP
      · exact hfin
      · dsimp only
        exact fillRange_get?_dated _ _ _ j _ hfin (fun hc => Option.noConfusion hc)
    · intro hgap2
      have hstep : (inferStep (knownAux 0 l)
          ((rangeNat 0 k).foldl (inferStep (knownAux 0 l)) l) k).get? j =
          some (neighborFill (d0.addDays 1)) := by
        unfold inferStep
        rw [hk0, hk1]
        dsimp only
        rw [if_neg (by omega : ¬ i1 ≤ i0 + 1),
          if_neg (by omega : ¬ d1.ord - d0.ord = 1), if_pos hgap2]
        exact fillRange_get?_fills (neighborFill (d0.addDays 1))
          (fun hc => Option.noConfusion hc)
          (rangeNat (i0 + 1) i1) _ j a ((mem_rangeNat _ _ _).mpr ⟨by omega, hj1⟩) hacc hal
      have hfin : ((rangeNat 0 ((knownAux 0 l).length - 1)).foldl
          (inferStep (knownAux 0 l)) l).get? j = some (neighborFill (d0.addDays 1)) := by
        rw [hsplit, List.foldl_append, List.foldl_cons]
        exact pairsFold_get?_dated _ _ _ j _ hstep (fun hc => Option.noConfusion hc)
      unfold inferGaps
      dsimp only
      rcases hlast : (knownAux 0 l).getLast? with _ | lastP
      · exact hfin
      · dsimp only
        exact fillRange_get?_dated _ _ _ j _ hfin (fun hc => Option.noConfusion hc)
    · intro hgap1 hgap2
      refine ⟨?_, ?_⟩
      · have hstepid : inferStep (knownAux 0 l)
            ((rangeNat 0 k).foldl (inferStep (knownAux 0 l)) l) k =
            (rangeNat 0 k).foldl (inferStep (knownAux 0 l)) l := by
          unfold inferStep
          rw [hk0, hk1]
          dsimp only
          rw [if_neg (by omega : ¬ i1 ≤ i0 + 1), if_neg hgap1, if_neg hgap2]
        have hpost : ((rangeNat (k + 1) ((knownAux 0 l).length - 1)).foldl
            (inferStep (knownAux 0 l))
            ((rangeNat 0 k).foldl (inferStep (knownAux 0 l)) l)).get? j =
            ((rangeNat 0 k).foldl (inferStep (knownAux 0 l)) l).get? j := by
          refine pairsFold_get?_away _ _ _ _ ?_
          intro k2 hk2 p0 p1 h0 h1
          left
          have hk2ge : k + 1 ≤ k2 := ((mem_rangeNat _ _ k2).mp hk2).1
          have hge : i1 ≤ p0.1 := knownAux_get?_mono_le l (k + 1) k2 _ _ hk2ge hk1 h0
          omega
        have hfin : ((rangeNat 0 ((knownAux 0 l).length - 1)).foldl
            (inferStep (knownAux 0 l)) l).get? j = l.get? j := by
          rw [hsplit, List.foldl_append, List.foldl_cons, hstepid, hpost, ha0]
        unfold inferGaps
        dsimp only
        rcases hlast : (knownAux 0 l).getLast? with _ | lastP
        · exact hfin
        · dsimp only
          have hlast2 : (knownAux 0 l).get? ((knownAux 0 l).length - 1) = some lastP := by
            rw [← getLast?_eq_get?MSJ]
            exact hlast
          have hli : i1 ≤ lastP.1 := knownAux_get?_mono_le l (k + 1)
            ((knownAux 0 l).length - 1) _ _ (by omega) hk1 hlast2
          have hnm : j ∉ rangeNat (lastP.1 + 1)
              ((rangeNat 0 ((knownAux 0 l).length - 1)).foldl
                (inferStep (knownAux 0 l)) l).length := by
            rw [mem_rangeNat]
            omega
          rw [fillRange_get?_not_mem _ _ _ j hnm]
          exact hfin
      · intro b hgb
        rw [hga] at hgb
        obtain rfl := Option.some.inj hgb
        exact hal
  · intro li ld hlast j hjli hjlen
    have hlast2 : (knownAux 0 l).get? ((knownAux 0 l).length - 1) = some (li, ld) := by
      rw [← getLast?_eq_get?MSJ]
      exact hlast
    obtain ⟨a, hga⟩ := get?_some_of_lt l j hjlen
    have hal : a.d = Option.none := knownAux_after_last_dateless l (li, ld) hlast j hjli a hga
    have ha1 : ((rangeNat 0 ((knownAux 0 l).length - 1)).foldl
        (inferStep (knownAux 0 l)) l).get? j = l.get? j := by
      refine pairsFold_get?_away _ _ _ _ ?_
      intro k2 hk2 p0 p1 h0 h1
      right
      have hk2lt : k2 < (knownAux 0 l).length - 1 := ((mem_rangeNat _ _ k2).mp hk2).2
      have hle : p1.1 ≤ li := knownAux_get?_mono_le l (k2 + 1)
        ((knownAux 0 l).length - 1) _ _ (by omega) h1 hlast2
      omega
    unfold inferGaps
    dsimp only
    rw [hlast]
    dsimp only
    refine fillRange_get?_fills (trailingFill ld) (fun hc => Option.noConfusion hc)
      _ _ j a ?_ ?_ hal
    · rw [mem_rangeNat, pairsFold_length]
      omega
    · rw [ha1]
      exact hga
  · intro f
    unfold neighborFill
    rw [h310]
  · intro f
    unfold trailingFill
    rw [h210]

/-- C7 witness: on a concrete first-pass output with known dates 2025-01-01
at index 0 and 2025-01-02 at index 3, the dateless pages in between become
`neighborFill` continuations and the trailing page a `trailingFill`. -/
theorem claim_C7_witness :
    (inferGaps lC7).get? 2 = some (neighborFill (pyd 2025 1 1)) ∧
    (inferGaps lC7).get? 4 = some (trailingFill (pyd 2025 1 2)) :=
  ⟨((claim_C7 lC7).2.2.1 0 0 (pyd 2025 1 1) 3 (pyd 2025 1 2) (by decide) (by decide)
      2 (by decide) (by decide)).1 (by decide),
   (claim_C7 lC7).2.2.2.1 3 (pyd 2025 1 2) (by decide) 4 (by decide) (by decide)⟩

/-! ### Sanity checks -/

example : pyd 2025 1 1 = ⟨739252⟩ := by decide
example : (pyd 2025 1 10).weekday = 4 := by decide
example : ord2ymd 739261 = (2025, 1, 10) := by decide
example : ord2ymd 739284 = (2025, 2, 2) := by decide
example : ord2ymd 739616 = (2025, 12, 31) := by decide
example : ord2ymd 739617 = (2026, 1, 1) := by decide
example : ord2ymd (toOrdinal 2024 2 29) = (2024, 2, 29) := by decide
example : ord2ymd (toOrdinal 2024 12 31) = (2024, 12, 31) := by decide
example : ord2ymd (toOrdinal 2000 12 31) = (2000, 12, 31) := by decide
example : ord2ymd (toOrdinal 1999 3 15) = (1999, 3, 15) := by decide
example : ord2ymd 1 = (1, 1, 1) := by decide
example : ord2ymd 0 = (0, 12, 31) := by decide

example : pyInt " 2025 " = some 2025 := by decide
example : pyInt "-5" = some (-5) := by decide
example : pyInt "+1_2" = some 12 := by decide
example : pyInt "1_" = none := by decide
example : pyInt "x7" = none := by decide
example : pyInt "" = none := by decide

example : pySplitlines "a\nb\n" = ["a", "b"] := by decide
example : pySplitlines "a\nb" = ["a", "b"] := by decide
example : pySplitlines "" = [] := by decide

example : natStr 27 = "27" := by decide
example : intStr (-5) = "-5" := by decide
example : strEnds "27" "7" = true := by decide
example : strEnds "12" "27" = false := by decide
example : lowerStr "JANUARY" = "january" := by decide

example : rangeInt (-3) 4 = [-3, -2, -1, 0, 1, 2, 3] := by decide
example : rangeNat 2 5 = [2, 3, 4] := by decide

example : _month_token_to_int "Julz" = some 7 := by decide
example : _month_token_to_int "Jan" = some 1 := by decide
example : _month_token_to_int "zzz" = Option.none := by decide
example : _month_token_to_int " JU|Y " = some 7 := by decide
example : _month_token_to_int "may" = some 5 := by decide
example : _month_token_to_int "" = Option.none := by decide

example : _dow_to_wanted " Monday " = some 0 := by decide
example : _dow_to_wanted "sunday" = some 6 := by decide
example : _dow_to_wanted "mondays" = Option.none := by decide

example : _fix_date_by_dow (pyd 2025 1 10) "monday" 3 = pyd 2025 1 13 := by decide
example : _fix_date_by_dow (pyd 2025 1 10) "friday" 3 = pyd 2025 1 10 := by decide
example : _fix_date_by_dow (pyd 2025 1 10) "nonsense" 3 = pyd 2025 1 10 := by decide
example : _fix_date_by_dow (pyd 2025 1 10) "wednesday" 3 = pyd 2025 1 8 := by decide

example : candidate_to_date ⟨"friday", "january", "10", "2025", ""⟩ = some (pyd 2025 1 10) := by
  decide
example : candidate_to_date ⟨"monday", "february", "30", "2025", ""⟩ = Option.none := by decide
example : candidate_to_date ⟨"monday", "zzz", "1", "2025", ""⟩ = Option.none := by decide
example : candidate_to_date ⟨"monday", "january", "x", "2025", ""⟩ = Option.none := by decide

example :
    repair_with_context ⟨"monday", "march", "15", "1999", ""⟩ (pyd 2025 1 10) defaultPolicy =
      Option.none := by decide

example :
    repair_with_contextH ⟨"sunday", "january", "27", "2025", ""⟩ (pyd 2025 1 10) defaultPolicy =
      some ⟨some (pyd 2025 1 12), DMethod.repaired, mkRat 14 20, Option.none⟩ := by decide

example :
    repair_with_contextH ⟨"saturday", "january", "1", "2025", ""⟩ (pyd 2025 1 28) defaultPolicy =
      some ⟨some (pyd 2025 1 25), DMethod.repaired, mkRat 8 20, Option.none⟩ := by decide

example : matchDateLine "FRIDAY, JANUARY 10, 2025" =
    some ("FRIDAY", "JANUARY", "10", "2025") := by decide

example : matchDateLine "friday  january 10 , 2025  " =
    some ("friday", "january", "10", "2025") := by decide

example : matchDateLine "FRIDAY,JANUARY 10, 2025" = Option.none := by decide

example : matchDateLine "FRIDAY JANUARY 10, 202" = Option.none := by decide

example : matchDateLine "FRIDAY ABCDEFGHIJKLM 10 2025" = Option.none := by decide

example : matchDateLine "FRIDAY JANUARY 100 2025" = Option.none := by decide

example : dowOnly "MONDAY" = true := by decide
example : dowOnly "Monday ," = true := by decide
example : dowOnly "MONDAYS" = false := by decide

example :
    parse_dow_month_day_year ["", " FRIDAY ", "JANUARY 10, 2025"] =
      some ⟨"FRIDAY", "JANUARY", "10", "2025", "FRIDAY JANUARY 10, 2025"⟩ := by decide

example :
    parse_dow_month_day_year ["noise", "SATURDAY MARCH 1 2024", "more"] =
      some ⟨"SATURDAY", "MARCH", "1", "2024", "SATURDAY MARCH 1 2024"⟩ := by decide

example : parse_dow_month_day_year ["nothing", "here"] = Option.none := by decide

example :
    assign_dates [pgOf "WEDNESDAY, JANUARY 1, 2025\nbody", pgOf "no date",
        pgOf "THURSDAY, JANUARY 2, 2025"] defaultPolicy =
      [⟨some (pyd 2025 1 1), DMethod.parsed, 1, Option.none⟩,
       neighborFill (pyd 2025 1 1),
       ⟨some (pyd 2025 1 2), DMethod.parsed, 1, Option.none⟩] := by decide

example :
    assign_dates [pgOf "WEDNESDAY, JANUARY 1, 2025", pgOf "no date",
        pgOf "FRIDAY, JANUARY 3, 2025"] defaultPolicy =
      [⟨some (pyd 2025 1 1), DMethod.parsed, 1, Option.none⟩,
       neighborFill (pyd 2025 1 2),
       ⟨some (pyd 2025 1 3), DMethod.parsed, 1, Option.none⟩] := by decide

example :
    assign_dates [pgOf "WEDNESDAY, JANUARY 1, 2025", pgOf "no date", pgOf "x",
        pgOf "FRIDAY, JANUARY 10, 2025"] polNoRepair =
      [⟨some (pyd 2025 1 1), DMethod.parsed, 1, Option.none⟩, noneAssign, noneAssign,
       ⟨some (pyd 2025 1 10), DMethod.parsed, 1, Option.none⟩] := by decide

example :
    assign_dates [pgOf "SUNDAY, JANUARY 5, 2025", pgOf "no date", pgOf "x"] defaultPolicy =
      [⟨some (pyd 2025 1 5), DMethod.parsed, 1, Option.none⟩,
       trailingFill (pyd 2025 1 5), trailingFill (pyd 2025 1 5)] := by decide

example :
    auto_detect_date_mode [pgOf "WEDNESDAY, JANUARY 1, 2025", pgOf "no",
      pgOf "THURSDAY, JANUARY 2, 2025", pgOf "FRIDAY, JANUARY 3, 2025"] defaultPolicy = true := by
  decide

example :
    auto_detect_date_mode [pgOf "WEDNESDAY, JANUARY 1, 2025", pgOf "no",
      pgOf "THURSDAY, JANUARY 2, 2025"] defaultPolicy = false := by decide

end MSJ
